import Mathlib

/-!
# dpae: verification of the declaration client against its specification

Shallow embedding of `dpae/tmpl.go`, `dpae/auth.go` and `dpae/dpae.go`.

* A Go `string` is a sequence of bytes: `GoString := List Nat` (a byte is a number
  below 256; no result depends on the bound).  `len(s)` is `List.length`, `s[:n]` is
  `List.take n`: lengths are counted in bytes, as Go counts them.
* A Go `rune` is a `Nat` (Unicode code point); the characters of a string are the
  runes Go decodes from it.
* The standard-library functions the code calls (`utf8.DecodeRune`, `regexp`,
  `xml.EscapeText`, `strings.Contains`) are embedded from their Go implementation.
* The remote service and the network are an oracle `Env` that gives the outcome of
  the n-th HTTP exchange; the two embedded templates and `encoding/json`, which are
  not in the sources, are parameters (`Ctx`).
* A call returns the session, the error and the list of the requests sent.
-/

namespace dpae

/-! ## Go strings -/

/-- A Go string: its bytes. -/
abbrev GoString := List Nat

/-- Go `utf8.AppendRune`: the UTF-8 bytes of a rune (surrogates and runes above
U+10FFFF are written as U+FFFD). -/
def encodeRune (r : Nat) : GoString :=
  if r < 0x80 then [r]
  else if r < 0x800 then [0xC0 + r / 64, 0x80 + r % 64]
  else if 0x10FFFF < r ∨ (0xD800 ≤ r ∧ r ≤ 0xDFFF) then [0xEF, 0xBF, 0xBD]
  else if r < 0x10000 then [0xE0 + r / 4096, 0x80 + r / 64 % 64, 0x80 + r % 64]
  else [0xF0 + r / 262144, 0x80 + r / 4096 % 64, 0x80 + r / 64 % 64, 0x80 + r % 64]

/-- The Go string written by a source literal: the UTF-8 bytes of its characters. -/
def utf8 (s : String) : GoString :=
  s.toList.flatMap (fun c => encodeRune c.toNat)

/-- A continuation byte `10xxxxxx`. -/
def isCont (b : Nat) : Bool := 0x80 ≤ b && b ≤ 0xBF

/-- Go `utf8.DecodeRune` / `utf8.DecodeRuneInString`: the first rune of `s` and its
width in bytes.  An empty input gives `(0xFFFD, 0)`; an invalid or truncated
encoding gives `(0xFFFD, 1)`.  The masks and shifts of the Go code are written with
`%` and `*` (`b & 0x1F = b % 32`, `x << 6 = x * 64`, and `|` is `+` on disjoint bits). -/
def decodeRune : GoString → Nat × Nat
  | [] => (0xFFFD, 0)
  | b0 :: rest =>
    if b0 < 0x80 then (b0, 1)
    else if 0xC2 ≤ b0 ∧ b0 ≤ 0xDF then
      match rest with
      | b1 :: _ => if isCont b1 then ((b0 % 32) * 64 + b1 % 64, 2) else (0xFFFD, 1)
      | _ => (0xFFFD, 1)
    else if 0xE0 ≤ b0 ∧ b0 ≤ 0xEF then
      match rest with
      | b1 :: b2 :: _ =>
        let lo := if b0 = 0xE0 then 0xA0 else 0x80
        let hi := if b0 = 0xED then 0x9F else 0xBF
        if lo ≤ b1 ∧ b1 ≤ hi ∧ isCont b2 then
          ((b0 % 16) * 4096 + (b1 % 64) * 64 + b2 % 64, 3)
        else (0xFFFD, 1)
      | _ => (0xFFFD, 1)
    else if 0xF0 ≤ b0 ∧ b0 ≤ 0xF4 then
      match rest with
      | b1 :: b2 :: b3 :: _ =>
        let lo := if b0 = 0xF0 then 0x90 else 0x80
        let hi := if b0 = 0xF4 then 0x8F else 0xBF
        if lo ≤ b1 ∧ b1 ≤ hi ∧ isCont b2 ∧ isCont b3 then
          ((b0 % 8) * 262144 + (b1 % 64) * 4096 + (b2 % 64) * 64 + b3 % 64, 4)
        else (0xFFFD, 1)
      | _ => (0xFFFD, 1)
    else (0xFFFD, 1)

/-- Go `strings.Contains(s, sub)`. -/
def containsStr (s sub : GoString) : Bool :=
  match s with
  | [] => sub.isEmpty
  | b :: rest => sub.isPrefixOf (b :: rest) || containsStr rest sub

/-! ## tmpl.go: the sanitizer -/

/-- The characters listed between the brackets of `reChar`
(`0-9a-zA-Z`, the thirty accented letters, apostrophe, hyphen, space). -/
def whitelist (r : Nat) : Bool :=
  (0x30 ≤ r && r ≤ 0x39) || (0x61 ≤ r && r ≤ 0x7A) || (0x41 ≤ r && r ≤ 0x5A) ||
  -- é è ê ë à â ä ù û ü î ï ô ö ç
  r = 0xE9 || r = 0xE8 || r = 0xEA || r = 0xEB || r = 0xE0 || r = 0xE2 || r = 0xE4 ||
  r = 0xF9 || r = 0xFB || r = 0xFC || r = 0xEE || r = 0xEF || r = 0xF4 || r = 0xF6 ||
  r = 0xE7 ||
  -- É È Ê Ë À Â Ä Ù Û Ü Î Ï Ô Ö Ç
  r = 0xC9 || r = 0xC8 || r = 0xCA || r = 0xCB || r = 0xC0 || r = 0xC2 || r = 0xC4 ||
  r = 0xD9 || r = 0xDB || r = 0xDC || r = 0xCE || r = 0xCF || r = 0xD4 || r = 0xD6 ||
  r = 0xC7 ||
  -- ' - space
  r = 0x27 || r = 0x2D || r = 0x20

/-- The pattern `reChar` is the negated class: it matches one rune outside the whitelist. -/
def reCharMatch (r : Nat) : Bool := !whitelist r

/-- The scan of `reChar.ReplaceAllString(s, " ")`: the input is read rune by rune with
`utf8.DecodeRuneInString`; a rune matched by `reChar` is replaced by one space, any
other rune is copied with its bytes.  The first argument bounds the number of runes read. -/
def replaceAllAux : Nat → GoString → GoString
  | 0, _ => []
  | _, [] => []
  | n + 1, b :: rest =>
    let rw := decodeRune (b :: rest)
    (if reCharMatch rw.1 then [0x20] else (b :: rest).take rw.2) ++
      replaceAllAux n ((b :: rest).drop rw.2)

/-- Go `reChar.ReplaceAllString(s, " ")`. -/
def reCharReplaceAll (s : GoString) : GoString := replaceAllAux s.length s

/-- Go `isInCharacterRange` of `encoding/xml`. -/
def isInCharacterRange (r : Nat) : Bool :=
  r = 0x09 || r = 0x0A || r = 0x0D || (0x20 ≤ r && r ≤ 0xD7FF) ||
  (0xE000 ≤ r && r ≤ 0xFFFD) || (0x10000 ≤ r && r ≤ 0x10FFFF)

/-- The replacement `xml.EscapeText` writes for a rune of the given width, if any. -/
def escapeOf (r width : Nat) : Option GoString :=
  if r = 0x22 then some (utf8 "&#34;")
  else if r = 0x27 then some (utf8 "&#39;")
  else if r = 0x26 then some (utf8 "&amp;")
  else if r = 0x3C then some (utf8 "&lt;")
  else if r = 0x3E then some (utf8 "&gt;")
  else if r = 0x09 then some (utf8 "&#x9;")
  else if r = 0x0A then some (utf8 "&#xA;")
  else if r = 0x0D then some (utf8 "&#xD;")
  else if !isInCharacterRange r || (r = 0xFFFD && width = 1) then some [0xEF, 0xBF, 0xBD]
  else none

/-- The loop of `xml.EscapeText`; the first argument bounds the number of runes read. -/
def escapeTextAux : Nat → GoString → GoString
  | 0, _ => []
  | _, [] => []
  | n + 1, b :: rest =>
    let rw := decodeRune (b :: rest)
    (match escapeOf rw.1 rw.2 with
      | some esc => esc
      | none => (b :: rest).take rw.2) ++
      escapeTextAux n ((b :: rest).drop rw.2)

/-- Go `xml.EscapeText(out, []byte(s))` followed by `out.String()`. -/
def escapeText (s : GoString) : GoString := escapeTextAux s.length s

/-- Go `fmtXML` of tmpl.go. -/
def fmtXML (s : GoString) : GoString :=
  let s := if s.length > 32 then s.take 32 else s
  let s := reCharReplaceAll s
  escapeText s


/-! ## Regular expressions of dpae.go

The three patterns have the shape `pre(.*)post` with literal `pre` and `post`.
`FindStringSubmatch` returns the leftmost match, the group being greedy; without
the flag `(?s)` the dot does not match a line feed. -/

/-- The last position of `seg` at which `post` starts, if any. -/
def lastIndexOf (post : GoString) : GoString → Option Nat
  | [] => if post.isEmpty then some 0 else none
  | b :: rest =>
    match lastIndexOf post rest with
    | some j => some (j + 1)
    | none => if post.isPrefixOf (b :: rest) then some 0 else none

/-- The text captured by a greedy `(.*)` that must be followed by `post`, when the
match of `pre` has just ended and `rest` is what follows. -/
def captureGreedy (dotAll : Bool) (post rest : GoString) : Option GoString :=
  let seg := if dotAll then rest else rest.takeWhile (fun b => b ≠ 0x0A)
  match lastIndexOf post seg with
  | some j => some (seg.take j)
  | none => none

/-- Go `regexp.MustCompile(pre(.*)post).FindStringSubmatch(s)`: `none` when the result
has not length 2 (no match), `some g` when it is `[whole, g]`. -/
def findSubmatch (dotAll : Bool) (pre post : GoString) : GoString → Option GoString
  | [] => none
  | b :: rest =>
    match (if pre.isPrefixOf (b :: rest) then
        captureGreedy dotAll post ((b :: rest).drop pre.length) else none) with
    | some g => some g
    | none => findSubmatch dotAll pre post rest

/-- The pattern `idflux>(.*)</idflux` of Send. -/
def reIdFlux (s : GoString) : Option GoString :=
  findSubmatch false (utf8 "idflux>") (utf8 "</idflux") s

/-- The pattern `<certificat_conformite>(.*)</certificat_conformite>` of retour. -/
def reCertificatConformite (s : GoString) : Option GoString :=
  findSubmatch false (utf8 "<certificat_conformite>") (utf8 "</certificat_conformite>") s

/-- The pattern `(?s)<message>(.*)</message>` of retour. -/
def reCertificatNonConformite (s : GoString) : Option GoString :=
  findSubmatch true (utf8 "<message>") (utf8 "</message>") s

/-! ## Data model (auth.go, dpae.go) -/

/-- Go `Identifiants`. -/
structure Identifiants where
  SIRET : GoString
  Nom : GoString
  Prenom : GoString
  MotDePasse : GoString
  Service : GoString
deriving DecidableEq

/-- Go `Employer`. -/
structure Employer where
  Designation : GoString
  SIRET : GoString
  APE : GoString
  URSSAFCode : GoString
  Adress : GoString
  Town : GoString
  Postal : GoString
  Phone : GoString
  HealthService : GoString
deriving DecidableEq

/-- Go `Employee`; the `Date` is kept as a number of days. -/
structure Employee where
  Surname : GoString
  ChristianName : GoString
  Sex : Int
  NIR : GoString
  NIRKey : GoString
  BirthDate : Int
  BirthTown : GoString
  BirthDepartment : GoString
deriving DecidableEq

/-- Go `Contract`; dates and times are kept as numbers. -/
structure Contract where
  StartContractDate : Int
  StartContractTime : Int
  EndContractDate : Int
  NatureCode : GoString
deriving DecidableEq

/-- Go `Dpae`: the declaration session. -/
structure Dpae where
  TestIndicator : Int
  Identifiants : Identifiants
  Employer : Employer
  Employee : Employee
  Contract : Contract
  Jeton : GoString
  IdFlux : GoString
  Sended : GoString
  Certificat : GoString
  CertifError : GoString
deriving DecidableEq

/-- Go `Retour`: one result record of the consultation. -/
structure Retour where
  Publication : GoString
  Production : GoString
  Nature : GoString
  Statut : GoString
  ID : GoString
  URL : GoString
deriving DecidableEq

/-- Go `Flux`. -/
structure Flux where
  ID : GoString
  Retour : List Retour
deriving DecidableEq

/-- Go `Retours`. -/
structure Retours where
  Flux : List Flux
deriving DecidableEq

/-- Go `Consultation`. -/
structure Consultation where
  Retours : Retours
deriving DecidableEq

/-- Go `URSSAFError`; `Err` is the text of the wrapped error, if any. -/
structure URSSAFError where
  Message : GoString
  Err : Option GoString
deriving DecidableEq

/-- The `fmt.Errorf` calls of the package, one per call site. -/
inductive ErrSite
  | templateAuth
  | newRequestAuth
  | erreurJeton
  | templateDpae
  | buildRequestPost
  | idfluxNotFound
  | idfluxLength
  | noIdFlux
  | buildRequestGet
  | unmarshalRetours
  | buildRequestGetURL
  | pasDeDescription
  | devraitContenirConformite
  | neTrouvePasDeCertificat
  | certificatIncorrect
  | pasDeCertificat
deriving DecidableEq

/-- A non-nil `error` leaving Auth, Send or Retour.  `nilDeref` is not an error value:
the call panics on a nil pointer and does not return. -/
inductive GoError
  | urssaf (e : URSSAFError)
  | errorf (site : ErrSite)
  | nilDeref
deriving DecidableEq

/-- Go `UErr`. -/
def UErr (err : Option GoString) (s : GoString) : GoError :=
  .urssaf { Message := utf8 "URSSAF: " ++ s, Err := err }

/-! ## The outside world -/

/-- An HTTP response as the code reads it. -/
structure Response where
  Status : GoString
  StatusCode : Int
  Body : GoString
deriving DecidableEq

/-- The outcome of one HTTP exchange (`http.NewRequest`, `client.Do`, `io.ReadAll`). -/
inductive Exchange
  | buildErr
  | doErr (msg : GoString)
  | readErr (msg : GoString)
  | ok (resp : Response)
deriving DecidableEq

/-- The remote service and the network: the outcome of the n-th exchange (from 0). -/
abbrev Env := Nat → Exchange

/-- A request handed to `client.Do`. -/
structure Request where
  Method : GoString
  URL : GoString
deriving DecidableEq

/-- The requests sent so far, oldest first. -/
abbrev Log := List Request

/-- What `json.Unmarshal(data, &consultation)` leaves: an error, a nil `consultation`
(the document `null`), or a value. -/
inductive Unmarshaled
  | error
  | null
  | value (c : Consultation)
deriving DecidableEq

/-- The package variables and the parts of the program that are not in the sources:
the two embedded templates (`auth.xml`, `dpae.xml`) and `encoding/json`.
A template execution gives `none` when `Execute` returns an error. -/
structure Ctx where
  RetryNb : Int
  UrlAuth : GoString
  UrlDepot : GoString
  UrlConsultation : GoString
  tAuth : Identifiants → Option GoString
  tDpae : Dpae → Option GoString
  jsonUnmarshal : GoString → Unmarshaled

/-- A call that has ended: the session, the returned error (or `nilDeref` for a panic),
the requests sent. -/
structure Result where
  d : Dpae
  err : Option GoError
  log : Log
deriving DecidableEq

/-- The request built by `http.NewRequest("GET", url, nil)`. -/
def getReq (url : GoString) : Request := ⟨utf8 "GET", url⟩

/-- The request built by `http.NewRequest("POST", url, body)`; the body is not recorded. -/
def postReq (url : GoString) : Request := ⟨utf8 "POST", url⟩

/-! ## auth.go: Auth -/

/-- Go `(*Dpae).Auth`. -/
def Dpae.Auth (ctx : Ctx) (env : Env) (d : Dpae) (pw : GoString) (log : Log) : Result :=
  if pw = [] ∨ d.Identifiants.SIRET = [] then
    ⟨d, some (UErr none (utf8 "Informations non renseignées")), log⟩
  else
    let d := { d with Identifiants := { d.Identifiants with MotDePasse := pw } }
    match ctx.tAuth d.Identifiants with
    | none => ⟨d, some (.errorf .templateAuth), log⟩
    | some _ =>
      let d := { d with Identifiants := { d.Identifiants with MotDePasse := [] } }
      match env log.length with
      | .buildErr => ⟨d, some (.errorf .newRequestAuth), log⟩
      | .doErr msg => ⟨d, some (UErr (some msg) (utf8 "Erreur réseau")), log ++ [postReq ctx.UrlAuth]⟩
      | .readErr msg => ⟨d, some (UErr (some msg) (utf8 "Erreur réseau")), log ++ [postReq ctx.UrlAuth]⟩
      | .ok resp =>
        let log := log ++ [postReq ctx.UrlAuth]
        if resp.Status = utf8 "422 Unprocessable Entity" then
          ⟨d, some (UErr none (utf8 "Authentification incorecte")), log⟩
        else if resp.StatusCode ≠ 200 then
          ⟨d, some (UErr none (utf8 "Erreur réseau status : " ++ resp.Status)), log⟩
        else
          let d := { d with Jeton := resp.Body }
          if d.Jeton.length < 10 then ⟨d, some (.errorf .erreurJeton), log⟩
          else ⟨d, none, log⟩

/-! ## dpae.go: Send -/

/-- Go `(*Dpae).Send`.  The transcoding to ISO 8859-1 and the compression build the
body of the request; their errors are discarded by the code (`io.Copy` results are
ignored), so they do not appear in the control flow. -/
def Dpae.Send (ctx : Ctx) (env : Env) (d : Dpae) (log : Log) : Result :=
  if d.Jeton = [] then ⟨d, some (UErr none (utf8 "Jeton vide")), log⟩
  else
    let d := { d with Employer := { d.Employer with HealthService := utf8 "01" } }
    let d := if d.Employee.BirthDepartment = utf8 "00" then
        { d with Employee := { d.Employee with BirthDepartment := utf8 "99" } } else d
    let d := if d.Employee.BirthDepartment.length > 2 then
        { d with Employee :=
            { d.Employee with BirthDepartment := d.Employee.BirthDepartment.take 2 } }
      else d
    match ctx.tDpae d with
    | none => ⟨d, some (.errorf .templateDpae), log⟩
    | some bUTF =>
      let d := { d with Sended := bUTF }
      match env log.length with
      | .buildErr => ⟨d, some (.errorf .buildRequestPost), log⟩
      | .doErr msg =>
        ⟨d, some (UErr none (utf8 "Network error at sending " ++ msg)),
          log ++ [postReq ctx.UrlDepot]⟩
      | .readErr msg =>
        ⟨d, some (UErr none (utf8 "Network error at reading " ++ msg)),
          log ++ [postReq ctx.UrlDepot]⟩
      | .ok resp =>
        let log := log ++ [postReq ctx.UrlDepot]
        match reIdFlux resp.Body with
        | none => ⟨d, some (.errorf .idfluxNotFound), log⟩
        | some fd1 =>
          let d := { d with IdFlux := fd1 }
          if d.IdFlux.length ≠ 23 then ⟨d, some (.errorf .idfluxLength), log⟩
          else ⟨d, none, log⟩

/-! ## dpae.go: Retour -/

/-- The two nested `range` loops of retour that collect the URLs. -/
def collectURLs (c : Consultation) : List GoString :=
  c.Retours.Flux.flatMap (fun flux => flux.Retour.map (fun retour => retour.URL))

/-- How the loop over the URLs is left. -/
inductive LoopExit
  /-- The statement `return d.retour(retry)`. -/
  | again (d : Dpae) (log : Log)
  /-- A `return` of an error. -/
  | ret (d : Dpae) (err : GoError) (log : Log)
  /-- The statement `break`, or the end of the list. -/
  | done (d : Dpae) (log : Log)
deriving DecidableEq

/-- The loop `for _, url := range urls` of retour. -/
def scanURLs (env : Env) : List GoString → Dpae → Log → LoopExit
  | [], d, log => .done d log
  | url :: urls, d, log =>
    match env log.length with
    | .buildErr => .ret d (.errorf .buildRequestGetURL) log
    | .doErr _ => .again d (log ++ [getReq url])
    | .readErr _ => .again d (log ++ [getReq url])
    | .ok resp =>
      let log := log ++ [getReq url]
      let str := resp.Body
      if !containsStr str (utf8 "profil=\"DPAE\"") then scanURLs env urls d log
      else if containsStr str (utf8 "<etat_conformite>KO</etat_conformite>") then
        match reCertificatNonConformite str with
        | none => .ret d (.errorf .pasDeDescription) log
        | some bilan1 =>
          let d := { d with CertifError := bilan1 }
          .ret d (UErr none (utf8 "Non conforme : " ++ d.CertifError)) log
      else if !containsStr str (utf8 "<etat_conformite>OK</etat_conformite>") then
        .ret d (.errorf .devraitContenirConformite) log
      else
        match reCertificatConformite str with
        | none => .ret d (.errorf .neTrouvePasDeCertificat) log
        | some certif1 =>
          let d := { d with Certificat := certif1 }
          if d.Certificat.length < 10 then .ret d (.errorf .certificatIncorrect) log
          else .done d log

/-- Go `fmt.Sprintf("%d", n)`. -/
def fmtInt (n : Int) : GoString := utf8 (toString n)

/-- The error returned when the attempts are exhausted. -/
def timeoutErr (ctx : Ctx) (d : Dpae) : GoError :=
  UErr none (utf8 "No answer with idflux " ++ d.IdFlux ++ utf8 " after " ++
    fmtInt ctx.RetryNb ++ utf8 " tries")

/-- Go `(*Dpae).retour`.  The first argument bounds the depth of the recursion
(`none` when it is exceeded); `time.Sleep` has no effect on the session.  The counter
never exceeds `RetryNb + 1`, so it is an unbounded integer here.  The outcome
`some .nilDeref` is not a return: on the list body `null` the pointer `consultation` is
nil and the call panics; the result then records the session and the requests at the
panic. -/
def Dpae.retour (ctx : Ctx) (env : Env) : Nat → Int → Dpae → Log → Option Result
  | 0, _, _, _ => none
  | fuel + 1, retry, d, log =>
    if retry > ctx.RetryNb then some ⟨d, some (timeoutErr ctx d), log⟩
    else
      let retry := retry + 1
      if d.IdFlux = [] then some ⟨d, some (.errorf .noIdFlux), log⟩
      else
        match env log.length with
        | .buildErr => some ⟨d, some (.errorf .buildRequestGet), log⟩
        | .doErr _ =>
          Dpae.retour ctx env fuel retry d (log ++ [getReq (ctx.UrlConsultation ++ d.IdFlux)])
        | .readErr _ =>
          Dpae.retour ctx env fuel retry d (log ++ [getReq (ctx.UrlConsultation ++ d.IdFlux)])
        | .ok resp =>
          let log := log ++ [getReq (ctx.UrlConsultation ++ d.IdFlux)]
          match ctx.jsonUnmarshal resp.Body with
          | .error => some ⟨d, some (.errorf .unmarshalRetours), log⟩
          | .null => some ⟨d, some .nilDeref, log⟩
          | .value consultation =>
            let urls := collectURLs consultation
            if urls.length = 0 then Dpae.retour ctx env fuel retry d log
            else
              match scanURLs env urls d log with
              | .again d log => Dpae.retour ctx env fuel retry d log
              | .ret d err log => some ⟨d, some err, log⟩
              | .done d log =>
                if d.Certificat.length = 0 then Dpae.retour ctx env fuel retry d log
                else if d.Certificat.length < 10 then
                  some ⟨d, some (.errorf .pasDeCertificat), log⟩
                else some ⟨d, none, log⟩

/-- The depth of recursion that `retour(0)` needs at most. -/
def retourDepth (ctx : Ctx) : Nat := (ctx.RetryNb + 1).toNat + 1

/-- Go `(*Dpae).Retour`: `d.retour(0)`. -/
def Dpae.Retour (ctx : Ctx) (env : Env) (d : Dpae) (log : Log) : Option Result :=
  Dpae.retour ctx env (retourDepth ctx) 0 d log

/-! ## Definitions for the statements -/

/-- Go `[]rune(s)`: the runes of a string, an invalid byte being read as U+FFFD.
The first argument bounds the number of runes read. -/
def toRunesAux : Nat → GoString → List Nat
  | 0, _ => []
  | _, [] => []
  | n + 1, b :: rest =>
    (decodeRune (b :: rest)).1 :: toRunesAux n ((b :: rest).drop (decodeRune (b :: rest)).2)

/-- The characters of a Go string. -/
def toRunes (s : GoString) : List Nat := toRunesAux s.length s

/-- The UTF-8 string of a list of characters. -/
def ofRunes (rs : List Nat) : GoString := rs.flatMap encodeRune

/-- XML escaping of one character, as the specification lists it
(`&`, `<`, `>`, apostrophe, double quote), with the entities Go writes. -/
def xmlEscapeChar (c : Nat) : GoString :=
  if c = 0x26 then utf8 "&amp;"
  else if c = 0x3C then utf8 "&lt;"
  else if c = 0x3E then utf8 "&gt;"
  else if c = 0x27 then utf8 "&#39;"
  else if c = 0x22 then utf8 "&#34;"
  else encodeRune c

/-- The substitution of the sanitizer on one character. -/
def sanitizeChar (c : Nat) : Nat := if whitelist c then c else 0x20

/-- The sanitizer as the specification words it, on characters: keep the first 32
characters, replace every character outside the whitelist by one space, escape. -/
def sanitizeSpec (text : List Nat) : GoString :=
  ((text.take 32).map sanitizeChar).flatMap xmlEscapeChar

/-- The session invariant as the specification words it, in characters: the flow
identifier is empty or has exactly 23 characters, the certificate is empty or has at
least 10 characters. -/
def SessionInv (d : Dpae) : Prop :=
  (d.IdFlux = [] ∨ (toRunes d.IdFlux).length = 23) ∧
  (d.Certificat = [] ∨ 10 ≤ (toRunes d.Certificat).length)

instance (d : Dpae) : Decidable (SessionInv d) := by
  unfold SessionInv; infer_instance

/-- The session invariant with the lengths the code tests, those of Go `len`, in
bytes: the flow identifier is empty or has exactly 23 bytes, the certificate is empty
or has at least 10 bytes. -/
def SessionInvLen (d : Dpae) : Prop :=
  (d.IdFlux = [] ∨ d.IdFlux.length = 23) ∧ (d.Certificat = [] ∨ 10 ≤ d.Certificat.length)

instance (d : Dpae) : Decidable (SessionInvLen d) := by
  unfold SessionInvLen; infer_instance

/-- A string made of ASCII characters: every byte is below 128. -/
def isASCII (s : GoString) : Prop := ∀ b ∈ s, b < 0x80

instance (s : GoString) : Decidable (isASCII s) := by
  unfold isASCII; infer_instance

/-- The normalization of the birth department as the specification words it, on
characters: `00` becomes `99`, a code longer than two characters becomes its first two
characters, any other code is unchanged. -/
def normalizeDeptSpec (dept : List Nat) : List Nat :=
  if dept = [0x30, 0x30] then [0x39, 0x39]
  else if 2 < dept.length then dept.take 2
  else dept

/-- The byte truncation of fmtXML. -/
def truncate32 (s : GoString) : GoString := if s.length > 32 then s.take 32 else s

/-- The property of an escaped text: every `&` starts the entity of the apostrophe. -/
def AmpStartsEntity (l : GoString) : Prop :=
  ∀ pre post, l = pre ++ 0x26 :: post → ∃ post', post = [0x23, 0x33, 0x39, 0x3B] ++ post'

/-- A Unicode scalar value: at most U+10FFFF and not a surrogate. -/
def validRune (r : Nat) : Bool := r ≤ 0x10FFFF && !(0xD800 ≤ r && r ≤ 0xDFFF)

/-- The characters written for one sanitized character. -/
def escapeRunes (c : Nat) : List Nat :=
  if c = 0x27 then [0x26, 0x23, 0x33, 0x39, 0x3B] else [c]

/-- How one activation of `retour` ends: by the recursive call `return d.retour(retry)`
or by returning. -/
inductive Step
  | again (d : Dpae) (log : Log)
  | stop (r : Result)
deriving DecidableEq

/-- The request for the list of results. -/
def listReq (ctx : Ctx) (d : Dpae) : Request := getReq (ctx.UrlConsultation ++ d.IdFlux)

/-- One activation of `retour` (one poll attempt), the recursive call left out: the body
of `Dpae.retour`, see `retour_succ`. -/
def attempt (ctx : Ctx) (env : Env) (retry : Int) (d : Dpae) (log : Log) : Step :=
  if retry > ctx.RetryNb then .stop ⟨d, some (timeoutErr ctx d), log⟩
  else if d.IdFlux = [] then .stop ⟨d, some (.errorf .noIdFlux), log⟩
  else
    match env log.length with
    | .buildErr => .stop ⟨d, some (.errorf .buildRequestGet), log⟩
    | .doErr _ => .again d (log ++ [listReq ctx d])
    | .readErr _ => .again d (log ++ [listReq ctx d])
    | .ok resp =>
      match ctx.jsonUnmarshal resp.Body with
      | .error => .stop ⟨d, some (.errorf .unmarshalRetours), log ++ [listReq ctx d]⟩
      | .null => .stop ⟨d, some .nilDeref, log ++ [listReq ctx d]⟩
      | .value consultation =>
        if (collectURLs consultation).length = 0 then .again d (log ++ [listReq ctx d])
        else
          match scanURLs env (collectURLs consultation) d (log ++ [listReq ctx d]) with
          | .again d log => .again d log
          | .ret d err log => .stop ⟨d, some err, log⟩
          | .done d log =>
            if d.Certificat.length = 0 then .again d log
            else if d.Certificat.length < 10 then
              .stop ⟨d, some (.errorf .pasDeCertificat), log⟩
            else .stop ⟨d, none, log⟩

/-- The profile marker looked for in a result document. -/
def profilDPAE : GoString := utf8 "profil=\"DPAE\""

/-- The negative compliance marker. -/
def etatKO : GoString := utf8 "<etat_conformite>KO</etat_conformite>"

/-- The positive compliance marker. -/
def etatOK : GoString := utf8 "<etat_conformite>OK</etat_conformite>"

/-- The `n` exchanges from the exchange `start` on are documents that were fetched and
lack the DPAE marker. -/
def AllSkipped (env : Env) (n start : Nat) : Prop :=
  ∀ i, i < n → ∃ r, env (start + i) = .ok r ∧ containsStr r.Body profilDPAE = false

/-- A certificate was taken from a positive DPAE document of the list `urls`, scanned
from the log `log`: the documents before it were fetched and lack the DPAE marker,
the document itself was the last request sent, and the certificate is the group of the
pattern `reCertificatConformite`, of at least 10 bytes (Go `len`). -/
def CertifiedBy (env : Env) (urls : List GoString) (d : Dpae) (log : Log)
    (d' : Dpae) (log' : Log) : Prop :=
  ∃ (skipped : List GoString) (url : GoString) (rest : List GoString) (doc : Response),
    urls = skipped ++ url :: rest ∧
    log' = log ++ (skipped ++ [url]).map getReq ∧
    AllSkipped env skipped.length log.length ∧
    env (log.length + skipped.length) = .ok doc ∧
    containsStr doc.Body profilDPAE = true ∧
    containsStr doc.Body etatKO = false ∧
    containsStr doc.Body etatOK = true ∧
    reCertificatConformite doc.Body = some d'.Certificat ∧
    10 ≤ d'.Certificat.length ∧
    d' = { d with Certificat := d'.Certificat }

/-- The attempt that starts at the log `log` got a list and took from one of its
documents the certificate of the result `r`. -/
def CertifiedIn (ctx : Ctx) (env : Env) (d : Dpae) (log : Log) (r : Result) : Prop :=
  ∃ resp c, env log.length = .ok resp ∧ ctx.jsonUnmarshal resp.Body = .value c ∧
    CertifiedBy env (collectURLs c) d (log ++ [getReq (ctx.UrlConsultation ++ d.IdFlux)])
      r.d r.log

/-- The attempt that starts at the log `log` got a list that is not empty, every
document of it was fetched and lacks the DPAE marker, and the result `r` is the session
unchanged, with the certificate it already held. -/
def HeldIn (ctx : Ctx) (env : Env) (d : Dpae) (log : Log) (r : Result) : Prop :=
  r.d = d ∧ d.Certificat ≠ [] ∧
  ∃ resp c, env log.length = .ok resp ∧ ctx.jsonUnmarshal resp.Body = .value c ∧
    collectURLs c ≠ [] ∧
    AllSkipped env (collectURLs c).length (log.length + 1) ∧
    r.log = log ++ getReq (ctx.UrlConsultation ++ d.IdFlux) :: (collectURLs c).map getReq

/-- A list request that brings no result: it fails on the network, or its answer is a
result list with no URL. -/
def NoResult (ctx : Ctx) (e : Exchange) : Prop :=
  (∃ msg, e = .doErr msg) ∨ (∃ msg, e = .readErr msg) ∨
  (∃ resp c, e = .ok resp ∧ ctx.jsonUnmarshal resp.Body = .value c ∧ collectURLs c = [])

/-! ## Concrete scenarios -/

/-- The service that answers the n-th exchange with the n-th element of a list, and
with a network failure afterwards. -/
def envOf (l : List Exchange) : Env := fun n => l.getD n (.doErr [])

/-- A successful exchange with the given body. -/
def okBody (body : GoString) : Exchange := .ok ⟨utf8 "200 OK", 200, body⟩

/-- A result record with the given URL. -/
def retourOf (url : GoString) : Retour := ⟨[], [], [], [], [], url⟩

/-- The JSON text of an answer of the consultation with no result. -/
def jsonNone : GoString := utf8 "\x7b\x7d"

/-- The JSON text of an answer of the consultation with one result. -/
def jsonOne : GoString :=
  utf8 ("\x7b\"retours\":\x7b\"flux\":[\x7b\"id\":\"F\",\"retour\":[" ++
    "\x7b\"url\":\"https://r/1\"\x7d]\x7d]\x7d\x7d")

/-- The JSON text of an answer of the consultation with two results. -/
def jsonTwo : GoString :=
  utf8 ("\x7b\"retours\":\x7b\"flux\":[\x7b\"id\":\"F\",\"retour\":[" ++
    "\x7b\"url\":\"https://r/1\"\x7d,\x7b\"url\":\"https://r/2\"\x7d]\x7d]\x7d\x7d")

/-- A stand-in for `encoding/json` that knows four documents: the three above and
`null`; any other text is rejected, as is the text `<html>` used below. -/
def exUnmarshal (body : GoString) : Unmarshaled :=
  if body = jsonNone then .value ⟨⟨[]⟩⟩
  else if body = utf8 "null" then .null
  else if body = jsonOne then .value ⟨⟨[⟨utf8 "F", [retourOf (utf8 "https://r/1")]⟩]⟩⟩
  else if body = jsonTwo then
    .value ⟨⟨[⟨utf8 "F", [retourOf (utf8 "https://r/1"), retourOf (utf8 "https://r/2")]⟩]⟩⟩
  else .error

/-- A configuration with three attempts (`RetryNb = 2`) and templates that render. -/
def exCtx : Ctx :=
  { RetryNb := 2
    UrlAuth := utf8 "https://auth/"
    UrlDepot := utf8 "https://depot/"
    UrlConsultation := utf8 "https://consultation/"
    tAuth := fun _ => some (utf8 "<auth/>")
    tDpae := fun _ => some (utf8 "<dpae/>")
    jsonUnmarshal := exUnmarshal }

/-- The same configuration with an authentication template whose execution fails. -/
def exCtxBadTemplate : Ctx := { exCtx with tAuth := fun _ => none }

/-- A session that holds a token and a flow identifier of 23 bytes, born in
department 974. -/
def exSession : Dpae :=
  { TestIndicator := 1
    Identifiants := ⟨utf8 "12345678901234", utf8 "DUPONT", utf8 "JEAN", [], utf8 "25"⟩
    Employer := ⟨utf8 "ACME", utf8 "12345678901234", utf8 "1234Z", utf8 "117", [], [], [],
      [], []⟩
    Employee := ⟨utf8 "MARTIN", utf8 "ANNE", 2, utf8 "2800175123456", utf8 "xx", 0,
      utf8 "SAINT-DENIS", utf8 "974"⟩
    Contract := ⟨0, 0, 0, utf8 "CDI"⟩
    Jeton := utf8 "jeton-0123456789"
    IdFlux := utf8 "F2345678901234567890123"
    Sended := []
    Certificat := []
    CertifError := [] }

/-- The same session born in the given department. -/
def exBornIn (dept : GoString) : Dpae :=
  { exSession with Employee := { exSession.Employee with BirthDepartment := dept } }

/-- The same session holding a certificate from an earlier poll. -/
def exCertified : Dpae := { exSession with Certificat := utf8 "CERTIF-OLD-0001" }

/-- A result document of another profile. -/
def docOther : GoString := utf8 "<retour profil=\"DSN\"></retour>"

/-- A negative DPAE result document. -/
def docKO : GoString :=
  utf8 ("<retour profil=\"DPAE\"><etat_conformite>KO</etat_conformite>" ++
    "<message>Numero de securite sociale invalide</message></retour>")

/-- A positive DPAE result document. -/
def docOK : GoString :=
  utf8 ("<retour profil=\"DPAE\"><etat_conformite>OK</etat_conformite>" ++
    "<certificat_conformite>CERTIF-0123456789</certificat_conformite></retour>")

/-- An answer of the submission whose flow identifier has 3 bytes. -/
def depotShort : GoString := utf8 "<idflux>abc</idflux>"

/-- An answer of the submission whose flow identifier has 23 bytes and 22 characters. -/
def depotAccent : GoString := utf8 "<idflux>N23456789012345678901é</idflux>"

/-- An answer of the submission whose flow identifier has 23 ASCII characters. -/
def depotOK : GoString := utf8 "<idflux>N2345678901234567890123</idflux>"

/-- A positive DPAE result document whose certificate has 10 bytes and 5 characters. -/
def docAccent : GoString :=
  utf8 ("<retour profil=\"DPAE\"><etat_conformite>OK</etat_conformite>" ++
    "<certificat_conformite>ééééé</certificat_conformite></retour>")

/-- A positive DPAE result document whose certificate is too short. -/
def docShort : GoString :=
  utf8 ("<retour profil=\"DPAE\"><etat_conformite>OK</etat_conformite>" ++
    "<certificat_conformite>short</certificat_conformite></retour>")

/-! ## Lemmas on UTF-8 decoding -/

theorem whitelist_range {r : Nat} (h : whitelist r = true) :
    (0x20 ≤ r ∧ r < 0x80) ∨ (0xC0 ≤ r ∧ r ≤ 0xFF) := by
  simp only [whitelist, Bool.or_eq_true, Bool.and_eq_true, decide_eq_true_eq] at h
  omega

/-- The shapes of a result of `decodeRune`. -/
theorem decodeRune_cases (s : GoString) :
    (s = [] ∧ decodeRune s = (0xFFFD, 0)) ∨
    (s ≠ [] ∧ decodeRune s = (0xFFFD, 1)) ∨
    (∃ b0 rest, s = b0 :: rest ∧ b0 < 0x80 ∧ decodeRune s = (b0, 1)) ∨
    (∃ b0 b1 rest, s = b0 :: b1 :: rest ∧ 0xC2 ≤ b0 ∧ b0 ≤ 0xDF ∧ 0x80 ≤ b1 ∧ b1 ≤ 0xBF ∧
      decodeRune s = ((b0 % 32) * 64 + b1 % 64, 2)) ∨
    (∃ r w, decodeRune s = (r, w) ∧ 0x800 ≤ r ∧ (w = 3 ∨ w = 4)) := by
  match s with
  | [] => left; simp [decodeRune]
  | b0 :: rest =>
    right
    simp only [decodeRune]
    by_cases h1 : b0 < 0x80
    · right; left; exact ⟨b0, rest, rfl, h1, by simp [h1]⟩
    rw [if_neg h1]
    by_cases h2 : 0xC2 ≤ b0 ∧ b0 ≤ 0xDF
    · rw [if_pos h2]
      match rest with
      | [] => left; simp
      | b1 :: r' =>
        by_cases h5 : isCont b1 = true
        · right; right; left
          refine ⟨b0, b1, r', rfl, h2.1, h2.2, ?_, ?_, by simp [h5]⟩ <;>
            (simp only [isCont, Bool.and_eq_true, decide_eq_true_eq] at h5; omega)
        · left; simp [h5]
    rw [if_neg h2]
    by_cases h3 : 0xE0 ≤ b0 ∧ b0 ≤ 0xEF
    · rw [if_pos h3]
      match rest with
      | [] => left; simp
      | [_] => left; simp
      | b1 :: b2 :: r' =>
        simp only []
        split_ifs
        all_goals first
          | (left; exact ⟨by simp, rfl⟩)
          | (right; right; right
             simp only [isCont, Bool.and_eq_true, decide_eq_true_eq] at *
             exact ⟨_, _, rfl, by omega, Or.inl rfl⟩)
    rw [if_neg h3]
    by_cases h4 : 0xF0 ≤ b0 ∧ b0 ≤ 0xF4
    · rw [if_pos h4]
      match rest with
      | [] => left; simp
      | [_] => left; simp
      | [_, _] => left; simp
      | b1 :: b2 :: b3 :: r' =>
        simp only []
        split_ifs
        all_goals first
          | (left; exact ⟨by simp, rfl⟩)
          | (right; right; right
             simp only [isCont, Bool.and_eq_true, decide_eq_true_eq] at *
             exact ⟨_, _, rfl, by omega, Or.inr rfl⟩)
    rw [if_neg h4]
    left; simp

theorem decodeRune_width_pos (b : Nat) (rest : GoString) :
    1 ≤ (decodeRune (b :: rest)).2 := by
  rcases decodeRune_cases (b :: rest) with h | h | ⟨_, _, _, _, h⟩ |
    ⟨_, _, _, _, _, _, _, _, h⟩ | ⟨r, w, h, _, hw⟩
  · simp at h
  · rw [h.2]
  · rw [h]
  · rw [h]; simp
  · rw [h]; rcases hw with hw | hw <;> simp [hw]

/-- A whitelisted rune is read from its own encoding. -/
theorem decodeRune_whitelist (s : GoString) (h : whitelist (decodeRune s).1 = true) :
    s.take (decodeRune s).2 = encodeRune (decodeRune s).1 := by
  have hr := whitelist_range h
  rcases decodeRune_cases s with h | h | ⟨b0, rest, hs, hb, h⟩ |
    ⟨b0, b1, rest, hs, h0, h0', h1, h1', h⟩ | ⟨r, w, h, hr', hw⟩
  · rw [h.2] at hr; simp at hr
  · rw [h.2] at hr; simp at hr
  · rw [h, hs]; simp [encodeRune, hb]
  · rw [h] at hr ⊢
    simp only at hr
    subst hs
    simp only [encodeRune]
    rw [if_neg (by omega), if_pos (by omega)]
    simp only [List.take_succ_cons, List.take_zero]
    congr 1
    · omega
    · congr 1; omega
  · rw [h] at hr; simp only at hr; omega

/-- The encoding of a whitelisted rune is read back as that rune. -/
theorem decodeRune_encodeRune {r : Nat} (h : whitelist r = true) (l : GoString) :
    decodeRune (encodeRune r ++ l) = (r, (encodeRune r).length) := by
  rcases whitelist_range h with hr | hr
  · have : r < 0x80 := hr.2
    simp [encodeRune, decodeRune, this]
  · have e1 : r / 64 = 3 := by omega
    have e2 : ¬ r < 0x80 := by omega
    have e3 : r < 0x800 := by omega
    simp only [encodeRune, if_neg e2, if_pos e3, e1, List.cons_append, List.nil_append,
      decodeRune, isCont, List.length_cons, List.length_nil]
    have e4 : (decide (0x80 ≤ 0x80 + r % 64) && decide (0x80 + r % 64 ≤ 0xBF)) = true := by
      simp only [Bool.and_eq_true, decide_eq_true_eq]; omega
    simp only [e4]
    norm_num
    omega

theorem encodeRune_length_pos (r : Nat) : 1 ≤ (encodeRune r).length := by
  unfold encodeRune; split_ifs <;> simp

/-! ## Lemmas on the sanitizer -/

theorem whitelist_sanitizeChar (c : Nat) : whitelist (sanitizeChar c) = true := by
  unfold sanitizeChar
  split_ifs with h
  · exact h
  · decide

/-- The replacement scan, rune by rune. -/
theorem replaceAllAux_eq (n : Nat) : ∀ s : GoString,
    replaceAllAux n s = ofRunes ((toRunesAux n s).map sanitizeChar) := by
  induction n with
  | zero => intro s; simp [replaceAllAux, toRunesAux, ofRunes]
  | succ n ih =>
    intro s
    match s with
    | [] => simp [replaceAllAux, toRunesAux, ofRunes]
    | b :: rest =>
      simp only [replaceAllAux, toRunesAux, List.map_cons, ofRunes, List.flatMap_cons]
      rw [ih]
      congr 1
      unfold sanitizeChar reCharMatch
      by_cases h : whitelist (decodeRune (b :: rest)).1 = true
      · simp only [h, Bool.not_true, if_true]
        exact decodeRune_whitelist (b :: rest) h
      · simp only [h, Bool.not_false, if_true]
        simp [encodeRune]

theorem xmlEscapeChar_whitelist {r : Nat} (h : whitelist r = true) :
    xmlEscapeChar r = if r = 0x27 then utf8 "&#39;" else encodeRune r := by
  have h1 : r ≠ 0x26 := by rintro rfl; simp [whitelist] at h
  have h2 : r ≠ 0x3C := by rintro rfl; simp [whitelist] at h
  have h3 : r ≠ 0x3E := by rintro rfl; simp [whitelist] at h
  have h4 : r ≠ 0x22 := by rintro rfl; simp [whitelist] at h
  simp only [xmlEscapeChar, if_neg h1, if_neg h2, if_neg h3]
  split_ifs <;> rfl

theorem escapeOf_whitelist {r : Nat} (h : whitelist r = true) (w : Nat) :
    escapeOf r w = if r = 0x27 then some (utf8 "&#39;") else none := by
  have hr := whitelist_range h
  have h4 : r ≠ 0x22 := by rintro rfl; simp [whitelist] at h
  have h1 : r ≠ 0x26 := by rintro rfl; simp [whitelist] at h
  have h2 : r ≠ 0x3C := by rintro rfl; simp [whitelist] at h
  have h3 : r ≠ 0x3E := by rintro rfl; simp [whitelist] at h
  have h5 : r ≠ 0x09 := by omega
  have h6 : r ≠ 0x0A := by omega
  have h7 : r ≠ 0x0D := by omega
  have h8 : isInCharacterRange r = true := by
    simp only [isInCharacterRange, Bool.or_eq_true, Bool.and_eq_true, decide_eq_true_eq]
    omega
  have h9 : r ≠ 0xFFFD := by omega
  unfold escapeOf
  by_cases h0 : r = 0x27
  · subst h0; simp
  · simp [h0, h1, h2, h3, h4, h5, h6, h7, h8, h9]

/-- On a text of whitelisted characters `xml.EscapeText` escapes character by character. -/
theorem escapeTextAux_ofRunes : ∀ (rs : List Nat), (∀ r ∈ rs, whitelist r = true) →
    ∀ n, (ofRunes rs).length ≤ n → escapeTextAux n (ofRunes rs) = rs.flatMap xmlEscapeChar := by
  intro rs
  induction rs with
  | nil => intro _ n _; cases n <;> simp [ofRunes, escapeTextAux]
  | cons r rs ih =>
    intro hw n hn
    have hr : whitelist r = true := hw r (List.mem_cons_self _ _)
    have hrs : ∀ x ∈ rs, whitelist x = true := fun x hx => hw x (List.mem_cons_of_mem _ hx)
    have hpos := encodeRune_length_pos r
    have hsplit : ofRunes (r :: rs) = encodeRune r ++ ofRunes rs := by simp [ofRunes]
    rw [hsplit] at hn ⊢
    rw [List.length_append] at hn
    obtain ⟨m, rfl⟩ : ∃ m, n = m + 1 := ⟨n - 1, by omega⟩
    obtain ⟨b, tl, hbt⟩ : ∃ b tl, encodeRune r ++ ofRunes rs = b :: tl := by
      cases hE : encodeRune r with
      | nil => rw [hE] at hpos; simp at hpos
      | cons b t => exact ⟨b, t ++ ofRunes rs, rfl⟩
    have hdec := decodeRune_encodeRune hr (ofRunes rs)
    rw [hbt] at hdec
    have heq : escapeTextAux (m + 1) (b :: tl) =
        (match escapeOf (decodeRune (b :: tl)).1 (decodeRune (b :: tl)).2 with
          | some esc => esc
          | none => (b :: tl).take (decodeRune (b :: tl)).2) ++
          escapeTextAux m ((b :: tl).drop (decodeRune (b :: tl)).2) := rfl
    rw [hbt, heq, hdec]
    simp only
    rw [← hbt, List.drop_left, List.take_left, ih hrs m (by omega), escapeOf_whitelist hr,
      List.flatMap_cons, xmlEscapeChar_whitelist hr]
    split_ifs <;> rfl

theorem toRunesAux_length (n : Nat) : ∀ s : GoString, (toRunesAux n s).length ≤ s.length := by
  induction n with
  | zero => intro s; simp [toRunesAux]
  | succ n ih =>
    intro s
    match s with
    | [] => simp [toRunesAux]
    | b :: rest =>
      simp only [toRunesAux, List.length_cons]
      have h1 := decodeRune_width_pos b rest
      have h2 := ih ((b :: rest).drop (decodeRune (b :: rest)).2)
      rw [List.length_drop, List.length_cons] at h2
      omega

theorem truncate32_length (s : GoString) : (truncate32 s).length ≤ 32 := by
  unfold truncate32
  split_ifs with h
  · rw [List.length_take]; omega
  · omega

/-- What fmtXML computes: the runes of the first 32 bytes, sanitized, then escaped. -/
theorem fmtXML_eq (s : GoString) :
    fmtXML s = ((toRunes (truncate32 s)).map sanitizeChar).flatMap xmlEscapeChar := by
  have h : fmtXML s = escapeText (reCharReplaceAll (truncate32 s)) := rfl
  rw [h]
  unfold escapeText reCharReplaceAll
  rw [replaceAllAux_eq]
  exact escapeTextAux_ofRunes _
    (by intro r hr; rw [List.mem_map] at hr; obtain ⟨c, _, rfl⟩ := hr
        exact whitelist_sanitizeChar c) _ (le_refl _)

theorem ampStartsEntity_cons {b : Nat} {l : GoString} (hb : b ≠ 0x26)
    (hl : AmpStartsEntity l) : AmpStartsEntity (b :: l) := by
  intro pre post h
  match pre with
  | [] => simp at h; exact absurd h.1 hb
  | p :: pre' =>
    simp only [List.cons_append, List.cons.injEq] at h
    exact hl pre' post h.2

theorem ampStartsEntity_entity {l : GoString} (hl : AmpStartsEntity l) :
    AmpStartsEntity (0x26 :: 0x23 :: 0x33 :: 0x39 :: 0x3B :: l) := by
  intro pre post h
  match pre with
  | [] => simp at h; exact ⟨l, by rw [← h]; rfl⟩
  | p :: pre' =>
    simp only [List.cons_append, List.cons.injEq] at h
    exact ampStartsEntity_cons (by decide) (ampStartsEntity_cons (by decide)
      (ampStartsEntity_cons (by decide) (ampStartsEntity_cons (by decide) hl))) pre' post h.2

theorem utf8_entity : utf8 "&#39;" = [0x26, 0x23, 0x33, 0x39, 0x3B] := by decide

/-- The escaped form of a whitelisted text is safe. -/
theorem escaped_safe : ∀ (rs : List Nat), (∀ r ∈ rs, whitelist r = true) →
    (0x3C ∉ rs.flatMap xmlEscapeChar ∧ 0x3E ∉ rs.flatMap xmlEscapeChar ∧
     0x22 ∉ rs.flatMap xmlEscapeChar ∧ 0x27 ∉ rs.flatMap xmlEscapeChar) ∧
    AmpStartsEntity (rs.flatMap xmlEscapeChar) := by
  intro rs
  induction rs with
  | nil =>
    intro _
    refine ⟨by simp, ?_⟩
    intro pre post h
    simp at h
  | cons r rs ih =>
    intro hw
    have hr : whitelist r = true := hw r (List.mem_cons_self _ _)
    obtain ⟨⟨i1, i2, i3, i4⟩, i5⟩ := ih (fun x hx => hw x (List.mem_cons_of_mem _ hx))
    rw [List.flatMap_cons, xmlEscapeChar_whitelist hr]
    by_cases h0 : r = 0x27
    · rw [if_pos h0, utf8_entity]
      refine ⟨⟨?_, ?_, ?_, ?_⟩, ampStartsEntity_entity i5⟩ <;>
        simp [i1, i2, i3, i4]
    · rw [if_neg h0]
      have h1 : r ≠ 0x26 := by rintro rfl; simp [whitelist] at hr
      have h2 : r ≠ 0x3C := by rintro rfl; simp [whitelist] at hr
      have h3 : r ≠ 0x3E := by rintro rfl; simp [whitelist] at hr
      have h4 : r ≠ 0x22 := by rintro rfl; simp [whitelist] at hr
      rcases whitelist_range hr with hlt | hge
      · have : encodeRune r = [r] := by simp [encodeRune, hlt.2]
        rw [this]
        refine ⟨⟨?_, ?_, ?_, ?_⟩, ampStartsEntity_cons h1 i5⟩ <;>
          simp [i1, i2, i3, i4, Ne.symm h0, Ne.symm h2, Ne.symm h3, Ne.symm h4]
      · have : encodeRune r = [0xC0 + r / 64, 0x80 + r % 64] := by
          simp only [encodeRune]
          rw [if_neg (by omega), if_pos (by omega)]
        rw [this]
        refine ⟨⟨?_, ?_, ?_, ?_⟩,
          ampStartsEntity_cons (by omega) (ampStartsEntity_cons (by omega) i5)⟩ <;>
          (simp only [List.cons_append, List.nil_append, List.mem_cons, not_or]
           refine ⟨by omega, by omega, ?_⟩
           assumption)

/-- The encoding of a character is read back as that character. -/
theorem decodeRune_encodeRune_valid {r : Nat} (h : validRune r = true) (l : GoString) :
    decodeRune (encodeRune r ++ l) = (r, (encodeRune r).length) := by
  simp only [validRune, Bool.and_eq_true, decide_eq_true_eq, Bool.not_eq_true',
    Bool.and_eq_false_iff, decide_eq_false_iff_not] at h
  by_cases c1 : r < 0x80
  · simp [encodeRune, decodeRune, c1]
  by_cases c2 : r < 0x800
  · simp only [encodeRune, if_neg c1, if_pos c2, List.cons_append, List.nil_append,
      decodeRune, isCont, List.length_cons, List.length_nil]
    rw [if_neg (by omega), if_pos (by omega)]
    have e4 : (decide (0x80 ≤ 0x80 + r % 64) && decide (0x80 + r % 64 ≤ 0xBF)) = true := by
      simp only [Bool.and_eq_true, decide_eq_true_eq]; omega
    simp only [e4, if_true, Prod.mk.injEq, and_true]
    omega
  have c3 : ¬ (0x10FFFF < r ∨ (0xD800 ≤ r ∧ r ≤ 0xDFFF)) := by omega
  by_cases c4 : r < 0x10000
  · simp only [encodeRune, if_neg c1, if_neg c2, if_neg c3, if_pos c4, List.cons_append,
      List.nil_append, decodeRune, isCont, List.length_cons, List.length_nil]
    rw [if_neg (by omega), if_neg (by omega), if_pos (by omega)]
    simp only [Bool.and_eq_true, decide_eq_true_eq]
    rw [if_pos (by split_ifs <;> omega)]
    simp only [Prod.mk.injEq, and_true]
    omega
  · simp only [encodeRune, if_neg c1, if_neg c2, if_neg c3, if_neg c4, List.cons_append,
      List.nil_append, decodeRune, isCont, List.length_cons, List.length_nil]
    rw [if_neg (by omega), if_neg (by omega), if_neg (by omega), if_pos (by omega)]
    simp only [Bool.and_eq_true, decide_eq_true_eq]
    rw [if_pos (by split_ifs <;> omega)]
    simp only [Prod.mk.injEq, and_true]
    omega

/-- Reading the characters of an encoded text gives the text back. -/
theorem toRunesAux_ofRunes : ∀ (rs : List Nat), (∀ r ∈ rs, validRune r = true) →
    ∀ n, (ofRunes rs).length ≤ n → toRunesAux n (ofRunes rs) = rs := by
  intro rs
  induction rs with
  | nil => intro _ n _; cases n <;> simp [ofRunes, toRunesAux]
  | cons r rs ih =>
    intro hw n hn
    have hr : validRune r = true := hw r (List.mem_cons_self _ _)
    have hrs : ∀ x ∈ rs, validRune x = true := fun x hx => hw x (List.mem_cons_of_mem _ hx)
    have hpos := encodeRune_length_pos r
    have hsplit : ofRunes (r :: rs) = encodeRune r ++ ofRunes rs := by simp [ofRunes]
    rw [hsplit] at hn ⊢
    rw [List.length_append] at hn
    obtain ⟨m, rfl⟩ : ∃ m, n = m + 1 := ⟨n - 1, by omega⟩
    obtain ⟨b, tl, hbt⟩ : ∃ b tl, encodeRune r ++ ofRunes rs = b :: tl := by
      cases hE : encodeRune r with
      | nil => rw [hE] at hpos; simp at hpos
      | cons b t => exact ⟨b, t ++ ofRunes rs, rfl⟩
    have hdec := decodeRune_encodeRune_valid hr (ofRunes rs)
    rw [hbt] at hdec
    have heq : toRunesAux (m + 1) (b :: tl) =
        (decodeRune (b :: tl)).1 :: toRunesAux m ((b :: tl).drop (decodeRune (b :: tl)).2) := rfl
    rw [hbt, heq, hdec]
    simp only
    rw [← hbt, List.drop_left, ih hrs m (by omega)]

theorem toRunes_ofRunes (rs : List Nat) (h : ∀ r ∈ rs, validRune r = true) :
    toRunes (ofRunes rs) = rs :=
  toRunesAux_ofRunes rs h _ (le_refl _)

theorem validRune_of_whitelist {r : Nat} (h : whitelist r = true) : validRune r = true := by
  have := whitelist_range h
  simp only [validRune, Bool.and_eq_true, decide_eq_true_eq, Bool.not_eq_true',
    Bool.and_eq_false_iff, decide_eq_false_iff_not]
  omega

theorem xmlEscapeChar_eq_ofRunes {r : Nat} (h : whitelist r = true) :
    xmlEscapeChar r = ofRunes (escapeRunes r) := by
  rw [xmlEscapeChar_whitelist h]
  unfold escapeRunes
  split_ifs
  · decide
  · simp [ofRunes]

theorem flatMap_xmlEscapeChar_eq : ∀ (rs : List Nat), (∀ r ∈ rs, whitelist r = true) →
    rs.flatMap xmlEscapeChar = ofRunes (rs.flatMap escapeRunes) := by
  intro rs
  induction rs with
  | nil => intro _; rfl
  | cons r rs ih =>
    intro hw
    rw [List.flatMap_cons, List.flatMap_cons, ih (fun x hx => hw x (List.mem_cons_of_mem _ hx)),
      xmlEscapeChar_eq_ofRunes (hw r (List.mem_cons_self _ _))]
    simp [ofRunes]

/-- The sanitizer agrees with the specification on a text whose UTF-8 form has at most
32 bytes. -/
theorem fmtXML_eq_sanitizeSpec_of_short (text : List Nat)
    (hv : ∀ c ∈ text, validRune c = true) (hlen : (ofRunes text).length ≤ 32) :
    fmtXML (ofRunes text) = sanitizeSpec text := by
  rw [fmtXML_eq]
  have ht : truncate32 (ofRunes text) = ofRunes text := by
    unfold truncate32; rw [if_neg (by omega)]
  rw [ht, toRunes_ofRunes text hv]
  have h1 : text.length ≤ 32 := by
    have := toRunesAux_length (ofRunes text).length (ofRunes text)
    rw [toRunesAux_ofRunes text hv _ (le_refl _)] at this
    omega
  unfold sanitizeSpec
  rw [List.take_of_length_le h1]

/-- On an ASCII string the characters are the bytes: its length in characters is its
length in bytes. -/
theorem toRunesAux_ascii : ∀ (s : GoString), (∀ b ∈ s, b < 0x80) →
    ∀ n, s.length ≤ n → toRunesAux n s = s := by
  intro s
  induction s with
  | nil => intro _ n _; cases n <;> simp [toRunesAux]
  | cons b rest ih =>
    intro h n hn
    obtain ⟨m, rfl⟩ : ∃ m, n = m + 1 := ⟨n - 1, by simp at hn; omega⟩
    have hb : b < 0x80 := h b (List.mem_cons_self _ _)
    have hd : decodeRune (b :: rest) = (b, 1) := by simp [decodeRune, hb]
    have heq : toRunesAux (m + 1) (b :: rest) =
        (decodeRune (b :: rest)).1 ::
          toRunesAux m ((b :: rest).drop (decodeRune (b :: rest)).2) := rfl
    rw [heq, hd]
    simp only [List.drop_succ_cons, List.drop_zero]
    rw [ih (fun x hx => h x (List.mem_cons_of_mem _ hx)) m (by simp at hn; omega)]

theorem toRunes_ascii (s : GoString) (h : ∀ b ∈ s, b < 0x80) : toRunes s = s :=
  toRunesAux_ascii s h _ (le_refl _)

/-! ## Lemmas on Retour -/

/-- The recursion of `retour`, one activation at a time. -/
theorem retour_succ (ctx : Ctx) (env : Env) (fuel : Nat) (retry : Int) (d : Dpae) (log : Log) :
    Dpae.retour ctx env (fuel + 1) retry d log =
      match attempt ctx env retry d log with
      | .stop r => some r
      | .again d' log' => Dpae.retour ctx env fuel (retry + 1) d' log' := by
  rw [Dpae.retour]
  unfold attempt listReq
  split_ifs with h1 h2
  · rfl
  · rfl
  · cases env log.length with
    | buildErr => rfl
    | doErr _ => rfl
    | readErr _ => rfl
    | ok resp =>
      simp only
      cases ctx.jsonUnmarshal resp.Body with
      | error => rfl
      | null => rfl
      | value c =>
        simp only
        split_ifs with h3
        · rfl
        · cases scanURLs env (collectURLs c) d (log ++ [getReq (ctx.UrlConsultation ++ d.IdFlux)]) with
          | again d' log' => rfl
          | ret d' err log' => rfl
          | done d' log' =>
            simp only
            split_ifs <;> rfl

/-- Documents without the DPAE marker are passed over. -/
theorem scanURLs_skip (env : Env) (d : Dpae) : ∀ (skipped rest : List GoString) (log : Log),
    AllSkipped env skipped.length log.length →
    scanURLs env (skipped ++ rest) d log = scanURLs env rest d (log ++ skipped.map getReq) := by
  intro skipped
  induction skipped with
  | nil => intro rest log _; simp
  | cons url skipped ih =>
    intro rest log h
    obtain ⟨r, hr, hc⟩ := h 0 (by simp)
    rw [Nat.add_zero] at hr
    have hc' : containsStr r.Body (utf8 "profil=\"DPAE\"") = false := hc
    rw [List.cons_append, scanURLs, hr]
    simp only [hc', Bool.not_false, if_true]
    rw [ih rest (log ++ [getReq url])]
    · simp
    · intro i hi
      have := h (i + 1) (by simp; omega)
      rw [List.length_append, List.length_singleton]
      rw [show log.length + 1 + i = log.length + (i + 1) by omega]
      exact this

/-- What the loop over the URLs can do to the session. -/
theorem scanURLs_spec (env : Env) (d : Dpae) : ∀ (urls : List GoString) (log : Log),
    match scanURLs env urls d log with
    | .again d' _ => d' = d
    | .ret d' err _ => d'.IdFlux = d.IdFlux ∧
        (err ≠ .errorf .certificatIncorrect → d'.Certificat = d.Certificat)
    | .done d' log' =>
      (d' = d ∧ log' = log ++ urls.map getReq ∧ AllSkipped env urls.length log.length) ∨
        CertifiedBy env urls d log d' log' := by
  intro urls
  induction urls with
  | nil =>
    intro log
    simp only [scanURLs, List.map_nil, List.append_nil, List.length_nil, true_and]
    left
    intro i hi
    omega
  | cons url urls ih =>
    intro log
    rw [scanURLs]
    cases hE : env log.length with
    | buildErr => simp
    | doErr _ => simp
    | readErr _ => simp
    | ok resp =>
      simp only
      by_cases hP : containsStr resp.Body (utf8 "profil=\"DPAE\"") = true
      · simp only [hP, Bool.not_true, Bool.false_eq_true, if_false]
        by_cases hK : containsStr resp.Body (utf8 "<etat_conformite>KO</etat_conformite>") = true
        · simp only [hK, if_true]
          cases reCertificatNonConformite resp.Body <;> simp
        · simp only [hK, Bool.false_eq_true, if_false]
          by_cases hO : containsStr resp.Body (utf8 "<etat_conformite>OK</etat_conformite>") = true
          · simp only [hO, Bool.not_true, Bool.false_eq_true, if_false]
            cases hC : reCertificatConformite resp.Body with
            | none => simp
            | some c =>
              simp only
              split_ifs with hlen
              · simp
              · right
                refine ⟨[], url, urls, resp, rfl, rfl, ?_, ?_, hP, ?_, hO, hC, ?_, rfl⟩
                · intro i hi; simp at hi
                · simpa using hE
                · simpa using hK
                · simpa using hlen
          · simp only [hO, Bool.not_false, if_true]
            simp
      · simp only [Bool.not_eq_true] at hP
        simp only [hP, Bool.not_false, if_true]
        have := ih (log ++ [getReq url])
        cases hS : scanURLs env urls d (log ++ [getReq url]) with
        | again d' log' => rw [hS] at this; exact this
        | ret d' e log' => rw [hS] at this; exact this
        | done d' log' =>
          rw [hS] at this
          simp only at this ⊢
          have hshift : ∀ n, AllSkipped env n (log ++ [getReq url]).length →
              AllSkipped env (n + 1) log.length := by
            intro n h3 i hi
            match i with
            | 0 => exact ⟨resp, by simpa using hE, hP⟩
            | j + 1 =>
              have := h3 j (by omega)
              rw [List.length_append, List.length_singleton] at this
              rw [show log.length + (j + 1) = log.length + 1 + j by omega]
              exact this
          rcases this with ⟨h1, h2, h3⟩ | ⟨skipped, u, rest, doc, h1, h2, h3, h4, h5⟩
          · left
            refine ⟨h1, ?_, ?_⟩
            · rw [h2]; simp
            · rw [List.length_cons]; exact hshift _ h3
          · right
            refine ⟨url :: skipped, u, rest, doc, by rw [h1]; rfl, ?_, ?_, ?_, h5⟩
            · rw [h2]; simp
            · rw [List.length_cons]; exact hshift _ h3
            · rw [List.length_append, List.length_singleton] at h4
              rw [List.length_cons, show log.length + (skipped.length + 1) =
                log.length + 1 + skipped.length by omega]
              exact h4

/-- What one activation of `retour` can do. -/
theorem attempt_spec (ctx : Ctx) (env : Env) (retry : Int) (d : Dpae) (log : Log) :
    match attempt ctx env retry d log with
    | .again d' _ => d' = d ∧ retry ≤ ctx.RetryNb
    | .stop r => r.d.IdFlux = d.IdFlux ∧
        (r.err ≠ some (.errorf .certificatIncorrect) →
          r.d.Certificat = d.Certificat ∨ 10 ≤ r.d.Certificat.length) ∧
        (r.err = none → 10 ≤ r.d.Certificat.length ∧
          (HeldIn ctx env d log r ∨ CertifiedIn ctx env d log r)) := by
  unfold attempt
  split_ifs with h1 h2
  · simp
  · simp
  · have hle : retry ≤ ctx.RetryNb := by omega
    cases hE : env log.length with
    | buildErr => simp
    | doErr _ => simp [hle]
    | readErr _ => simp [hle]
    | ok resp =>
      simp only
      cases hJ : ctx.jsonUnmarshal resp.Body with
      | error => simp
      | null => simp
      | value c =>
        simp only
        split_ifs with h3
        · simp [hle]
        · have hs := scanURLs_spec env d (collectURLs c) (log ++ [listReq ctx d])
          have hne : collectURLs c ≠ [] := by
            intro h; rw [h] at h3; simp at h3
          cases hS : scanURLs env (collectURLs c) d (log ++ [listReq ctx d]) with
          | again d' log' => rw [hS] at hs; exact ⟨hs, hle⟩
          | ret d' err log' =>
            rw [hS] at hs
            simp only at hs ⊢
            refine ⟨hs.1, ?_, by simp⟩
            intro hne'
            exact Or.inl (hs.2 (by intro h; exact hne' (by rw [h])))
          | done d' log' =>
            rw [hS] at hs
            simp only at hs ⊢
            have hcert : d'.Certificat = d.Certificat ∨ 10 ≤ d'.Certificat.length := by
              rcases hs with ⟨h, _⟩ | ⟨_, _, _, _, _, _, _, _, _, _, _, _, hlen, _⟩
              · exact Or.inl (by rw [h])
              · exact Or.inr hlen
            have hflux : d'.IdFlux = d.IdFlux := by
              rcases hs with ⟨h, _⟩ | ⟨_, _, _, _, _, _, _, _, _, _, _, _, _, h⟩
              · rw [h]
              · rw [h]
            split_ifs with h4 h5
            · refine ⟨?_, hle⟩
              rcases hs with ⟨h, _⟩ | ⟨_, _, _, _, _, _, _, _, _, _, _, _, hlen, _⟩
              · exact h
              · omega
            · exact ⟨hflux, fun _ => hcert, by simp⟩
            · refine ⟨hflux, fun _ => hcert, fun _ =>
                ⟨show 10 ≤ d'.Certificat.length by omega, ?_⟩⟩
              rcases hs with ⟨h, hl, hsk⟩ | hc
              · left
                refine ⟨h, ?_, resp, c, hE, hJ, hne, ?_, ?_⟩
                · intro he
                  rw [h, he] at h4
                  simp at h4
                · have hlen : (log ++ [listReq ctx d]).length = log.length + 1 := by simp
                  rw [hlen] at hsk
                  exact hsk
                · show log' = _
                  rw [hl]; simp [listReq]
              · exact Or.inr ⟨resp, c, hE, hJ, hc⟩

/-- The recursion of `retour` ends within `RetryNb + 1 - retry` further activations. -/
theorem retour_total (ctx : Ctx) (env : Env) : ∀ (fuel : Nat) (retry : Int) (d : Dpae)
    (log : Log), (ctx.RetryNb + 1 - retry).toNat < fuel →
    ∃ r, Dpae.retour ctx env fuel retry d log = some r := by
  intro fuel
  induction fuel with
  | zero => intro retry d log h; omega
  | succ fuel ih =>
    intro retry d log h
    rw [retour_succ]
    have hs := attempt_spec ctx env retry d log
    cases hA : attempt ctx env retry d log with
    | stop r => exact ⟨r, rfl⟩
    | again d' log' =>
      rw [hA] at hs
      exact ih (retry + 1) d' log' (by omega)

/-- What a call of `retour` that ends can have done. -/
theorem retour_spec (ctx : Ctx) (env : Env) : ∀ (fuel : Nat) (retry : Int) (d : Dpae)
    (log : Log) (r : Result), Dpae.retour ctx env fuel retry d log = some r →
    r.d.IdFlux = d.IdFlux ∧
      (r.err ≠ some (.errorf .certificatIncorrect) →
        r.d.Certificat = d.Certificat ∨ 10 ≤ r.d.Certificat.length) ∧
      (r.err = none → 10 ≤ r.d.Certificat.length ∧
        ∃ log0, HeldIn ctx env d log0 r ∨ CertifiedIn ctx env d log0 r) := by
  intro fuel
  induction fuel with
  | zero => intro retry d log r h; simp [Dpae.retour] at h
  | succ fuel ih =>
    intro retry d log r h
    rw [retour_succ] at h
    have hs := attempt_spec ctx env retry d log
    cases hA : attempt ctx env retry d log with
    | stop r' =>
      rw [hA] at hs h
      simp only [Option.some.injEq] at h
      subst h
      refine ⟨hs.1, hs.2.1, fun hn => ?_⟩
      obtain ⟨h1, h2⟩ := hs.2.2 hn
      exact ⟨h1, log, h2⟩
    | again d' log' =>
      rw [hA] at hs h
      simp only at h hs
      obtain ⟨rfl, _⟩ := hs
      exact ih (retry + 1) d' log' r h

/-- With no result from the service, `retour` uses up the attempts that are left. -/
theorem retour_noResult (ctx : Ctx) (env : Env) (d : Dpae) (hflux : d.IdFlux ≠ []) :
    ∀ (k : Nat) (fuel : Nat) (retry : Int) (log : Log), k < fuel →
    retry + k = ctx.RetryNb + 1 →
    (∀ i, i < k → NoResult ctx (env (log.length + i))) →
    Dpae.retour ctx env fuel retry d log =
      some ⟨d, some (timeoutErr ctx d), log ++ List.replicate k (listReq ctx d)⟩ := by
  intro k
  induction k with
  | zero =>
    intro fuel retry log hf hr _
    obtain ⟨m, rfl⟩ : ∃ m, fuel = m + 1 := ⟨fuel - 1, by omega⟩
    rw [retour_succ]
    unfold attempt
    rw [if_pos (by omega)]
    simp
  | succ k ih =>
    intro fuel retry log hf hr hq
    obtain ⟨m, rfl⟩ : ∃ m, fuel = m + 1 := ⟨fuel - 1, by omega⟩
    rw [retour_succ]
    have hA : attempt ctx env retry d log = .again d (log ++ [listReq ctx d]) := by
      unfold attempt
      rw [if_neg (by omega), if_neg hflux]
      have h0 := hq 0 (by omega)
      rw [Nat.add_zero] at h0
      rcases h0 with ⟨msg, h0⟩ | ⟨msg, h0⟩ | ⟨resp, c, h0, hj, hc⟩
      · rw [h0]
      · rw [h0]
      · rw [h0]; simp only [hj, hc, List.length_nil, if_true]
    rw [hA]
    simp only
    rw [ih m (retry + 1) (log ++ [listReq ctx d]) (by omega) (by omega)]
    · simp [List.replicate_succ]
    · intro i hi
      have := hq (i + 1) (by omega)
      rw [List.length_append, List.length_singleton,
        show log.length + 1 + i = log.length + (i + 1) by omega]
      exact this

/-- Retour ends, by returning or by the panic `nilDeref`: the depth given to `retour`
is never exceeded. -/
theorem Retour_ends (ctx : Ctx) (env : Env) (d : Dpae) (log : Log) :
    ∃ r, d.Retour ctx env log = some r :=
  retour_total ctx env (retourDepth ctx) 0 d log (by unfold retourDepth; omega)

/-! ## The sanitizer: claims C1, C2, C3 -/

/-- C1 (defect of the code): fmtXML cuts the input at 32 bytes, not at 32 characters.
On the 17 characters `ééééééééééééééééé` (34 bytes) the specification keeps the whole
text, the code returns 16 of them; on `a` followed by 16 `é` (33 bytes) the cut falls
inside the last character, whose first byte becomes a space.  The three examples of
the claim hold. -/
theorem fmtXML_cuts_bytes_not_characters :
    utf8 "ééééééééééééééééé" = ofRunes (List.replicate 17 0xE9) ∧
    sanitizeSpec (List.replicate 17 0xE9) = utf8 "ééééééééééééééééé" ∧
    fmtXML (utf8 "ééééééééééééééééé") = utf8 "éééééééééééééééé" ∧
    fmtXML (utf8 "ééééééééééééééééé") ≠ sanitizeSpec (List.replicate 17 0xE9) ∧
    sanitizeSpec (0x61 :: List.replicate 16 0xE9) = utf8 "aéééééééééééééééé" ∧
    fmtXML (utf8 "aéééééééééééééééé") = utf8 "aééééééééééééééé " ∧
    fmtXML (utf8 "ab,;_cd") = utf8 "ab   cd" ∧
    fmtXML (utf8 "éàê") = utf8 "éàê" ∧
    fmtXML (utf8 "abcdefghijklmnopqrstuvwxyzazerty012345") =
      utf8 "abcdefghijklmnopqrstuvwxyzazerty" := by
  decide

/-- C2: for every input, the result of fmtXML contains no `<`, no `>`, no double quote
and no apostrophe; every `&` in it is followed by `#39;`; and the result is the text
kept by the whitelist (all its characters whitelisted) in which each apostrophe is
written as the entity `&#39;` and every other character is unchanged. -/
theorem fmtXML_safe_for_xml (s : GoString) :
    0x3C ∉ fmtXML s ∧ 0x3E ∉ fmtXML s ∧ 0x22 ∉ fmtXML s ∧ 0x27 ∉ fmtXML s ∧
    (∀ pre post, fmtXML s = pre ++ 0x26 :: post →
      ∃ post', post = [0x23, 0x33, 0x39, 0x3B] ++ post') ∧
    (∃ rs : List Nat, (∀ r ∈ rs, whitelist r = true) ∧
      reCharReplaceAll (if s.length > 32 then s.take 32 else s) = ofRunes rs ∧
      fmtXML s = rs.flatMap (fun r =>
        if r = 0x27 then [0x26, 0x23, 0x33, 0x39, 0x3B] else encodeRune r)) := by
  have hw : ∀ r ∈ (toRunes (truncate32 s)).map sanitizeChar, whitelist r = true := by
    intro r hr
    rw [List.mem_map] at hr
    obtain ⟨c, _, rfl⟩ := hr
    exact whitelist_sanitizeChar c
  obtain ⟨⟨h1, h2, h3, h4⟩, h5⟩ := escaped_safe _ hw
  rw [← fmtXML_eq] at h1 h2 h3 h4 h5
  refine ⟨h1, h2, h3, h4, h5, (toRunes (truncate32 s)).map sanitizeChar, hw, ?_, ?_⟩
  · exact replaceAllAux_eq _ _
  · rw [fmtXML_eq]
    apply List.flatMap_congr
    intro r hr
    rw [xmlEscapeChar_whitelist (hw r hr), utf8_entity]

/-- C3 as stated fails: the output for `l'été` holds the character `&`, which is
neither whitelisted nor a space. -/
theorem fmtXML_output_not_all_whitelisted :
    fmtXML (utf8 "l'été") = utf8 "l&#39;été" ∧
    ¬ (∀ c ∈ toRunes (fmtXML (utf8 "l'été")), whitelist c = true ∨ c = 0x20) := by
  decide

/-- C3 amended: the text that fmtXML escapes has at most 32 characters, all of them
whitelisted (the space is one of them); the characters of the output are those of
that text, each apostrophe being written `&#39;`; so every character of the output is
a whitelisted character other than the apostrophe, or one of `&`, `#`, `;`. -/
theorem fmtXML_output_characters (s : GoString) :
    ∃ rs : List Nat, rs.length ≤ 32 ∧ (∀ c ∈ rs, whitelist c = true) ∧
      reCharReplaceAll (if s.length > 32 then s.take 32 else s) = ofRunes rs ∧
      toRunes (fmtXML s) = rs.flatMap escapeRunes ∧
      ∀ c ∈ toRunes (fmtXML s),
        (whitelist c = true ∧ c ≠ 0x27) ∨ c = 0x26 ∨ c = 0x23 ∨ c = 0x3B := by
  have hw : ∀ r ∈ (toRunes (truncate32 s)).map sanitizeChar, whitelist r = true := by
    intro r hr
    rw [List.mem_map] at hr
    obtain ⟨c, _, rfl⟩ := hr
    exact whitelist_sanitizeChar c
  have hchar : ∀ c ∈ ((toRunes (truncate32 s)).map sanitizeChar).flatMap escapeRunes,
      (whitelist c = true ∧ c ≠ 0x27) ∨ c = 0x26 ∨ c = 0x23 ∨ c = 0x3B := by
    intro c hc
    rw [List.mem_flatMap] at hc
    obtain ⟨r, hr, hcr⟩ := hc
    unfold escapeRunes at hcr
    split_ifs at hcr with h0
    · simp only [List.mem_cons, List.mem_singleton, List.not_mem_nil, or_false] at hcr
      rcases hcr with rfl | rfl | rfl | rfl | rfl <;> simp [whitelist]
    · simp only [List.mem_singleton] at hcr
      subst hcr
      exact Or.inl ⟨hw c hr, h0⟩
  have hrunes : toRunes (fmtXML s) =
      ((toRunes (truncate32 s)).map sanitizeChar).flatMap escapeRunes := by
    rw [fmtXML_eq, flatMap_xmlEscapeChar_eq _ hw]
    apply toRunes_ofRunes
    intro c hc
    rcases hchar c hc with h | rfl | rfl | rfl
    · exact validRune_of_whitelist h.1
    · decide
    · decide
    · decide
  refine ⟨(toRunes (truncate32 s)).map sanitizeChar, ?_, hw, replaceAllAux_eq _ _, hrunes, ?_⟩
  · rw [List.length_map]
    exact le_trans (toRunesAux_length _ _) (truncate32_length s)
  · rw [hrunes]; exact hchar

/-! ## Retour: claims C4, C5, C7, C8 -/

/-- C4: in any poll attempt (any activation of `retour` within the attempt budget, with
a flow identifier), when the list gives URLs, the documents before some document are
fetched and lack the DPAE marker (so none yielded a certificate), and that document is
fetched and holds the DPAE marker and the KO marker: if it holds a message block,
`retour` returns at once, the document being the last request sent, with the text of
the block stored in CertifError and the URSSAFError `URSSAF: Non conforme : ` followed
by that text; if it holds none, `retour` returns the plain error of that call site and
the session is unchanged. -/
theorem retour_rejected (ctx : Ctx) (env : Env) (fuel : Nat) (retry : Int) (d : Dpae)
    (log : Log) (resp : Response) (c : Consultation) (skipped : List GoString)
    (url : GoString) (rest : List GoString) (doc : Response)
    (hretry : retry ≤ ctx.RetryNb) (hflux : d.IdFlux ≠ [])
    (hlist : env log.length = .ok resp)
    (hjson : ctx.jsonUnmarshal resp.Body = .value c)
    (hurls : collectURLs c = skipped ++ url :: rest)
    (hskip : ∀ i, i < skipped.length →
      ∃ r, env (log.length + 1 + i) = .ok r ∧ containsStr r.Body (utf8 "profil=\"DPAE\"") = false)
    (hdoc : env (log.length + 1 + skipped.length) = .ok doc)
    (hprofil : containsStr doc.Body (utf8 "profil=\"DPAE\"") = true)
    (hKO : containsStr doc.Body (utf8 "<etat_conformite>KO</etat_conformite>") = true) :
    (∀ m, reCertificatNonConformite doc.Body = some m →
      Dpae.retour ctx env (fuel + 1) retry d log =
        some ⟨{ d with CertifError := m },
          some (.urssaf ⟨utf8 "URSSAF: Non conforme : " ++ m, none⟩),
          log ++ getReq (ctx.UrlConsultation ++ d.IdFlux) :: (skipped ++ [url]).map getReq⟩) ∧
    (reCertificatNonConformite doc.Body = none →
      Dpae.retour ctx env (fuel + 1) retry d log =
        some ⟨d, some (.errorf .pasDeDescription),
          log ++ getReq (ctx.UrlConsultation ++ d.IdFlux) :: (skipped ++ [url]).map getReq⟩) := by
  have hlen : (log ++ [listReq ctx d]).length = log.length + 1 := by simp
  have hscan : scanURLs env (collectURLs c) d (log ++ [listReq ctx d]) =
      scanURLs env (url :: rest) d (log ++ [listReq ctx d] ++ skipped.map getReq) := by
    rw [hurls]
    apply scanURLs_skip
    intro i hi
    rw [hlen]
    exact hskip i hi
  have hlen2 : (log ++ [listReq ctx d] ++ skipped.map getReq).length =
      log.length + 1 + skipped.length := by simp; omega
  have hne : ¬ (collectURLs c).length = 0 := by rw [hurls]; simp
  have hlog : log ++ [listReq ctx d] ++ skipped.map getReq ++ [getReq url] =
      log ++ getReq (ctx.UrlConsultation ++ d.IdFlux) :: (skipped ++ [url]).map getReq := by
    simp [listReq]
  have hmsg : utf8 "URSSAF: " ++ utf8 "Non conforme : " = utf8 "URSSAF: Non conforme : " := by
    decide
  refine ⟨fun m hm => ?_, fun hm => ?_⟩
  · rw [retour_succ]
    unfold attempt
    rw [if_neg (by omega), if_neg hflux, hlist]
    simp only [hjson, if_neg hne, hscan]
    rw [scanURLs, hlen2, hdoc]
    simp only [hprofil, hKO, hm, Bool.not_true, Bool.false_eq_true, if_false, if_true, hlog,
      UErr, ← List.append_assoc, hmsg]
  · rw [retour_succ]
    unfold attempt
    rw [if_neg (by omega), if_neg hflux, hlist]
    simp only [hjson, if_neg hne, hscan]
    rw [scanURLs, hlen2, hdoc]
    simp only [hprofil, hKO, hm, Bool.not_true, Bool.false_eq_true, if_false, if_true, hlog]

/-- C4 at a concrete attempt: a list of two URLs, a document of another profile, then
a negative DPAE document. -/
theorem retour_rejected_witness :
    Dpae.retour exCtx (envOf [okBody jsonTwo, okBody docOther, okBody docKO]) 1 0
        exSession [] =
      some ⟨{ exSession with CertifError := utf8 "Numero de securite sociale invalide" },
        some (.urssaf ⟨utf8 "URSSAF: Non conforme : " ++
          utf8 "Numero de securite sociale invalide", none⟩),
        [] ++ getReq (exCtx.UrlConsultation ++ exSession.IdFlux) ::
          ([utf8 "https://r/1"] ++ [utf8 "https://r/2"]).map getReq⟩ :=
  (retour_rejected exCtx (envOf [okBody jsonTwo, okBody docOther, okBody docKO]) 0 0
    exSession [] ⟨utf8 "200 OK", 200, jsonTwo⟩
    ⟨⟨[⟨utf8 "F", [retourOf (utf8 "https://r/1"), retourOf (utf8 "https://r/2")]⟩]⟩⟩
    [utf8 "https://r/1"] (utf8 "https://r/2") [] ⟨utf8 "200 OK", 200, docKO⟩
    (by decide) (by decide) (by decide) (by decide) (by decide)
    (fun i hi => by
      have h0 : i = 0 := by simpa using hi
      subst h0
      exact ⟨⟨utf8 "200 OK", 200, docOther⟩, by decide, by decide⟩)
    (by decide) (by decide) (by decide)).1 _ (by decide)

/-- C5: with `RetryNb = N`, a flow identifier, and a service whose first N+1 exchanges
are list requests that fail on the network or bring a list with no URL, Retour returns
(the recursion ends): it has sent exactly N+1 requests, all of them list requests, the
session is unchanged, and the error is the URSSAFError of the time-out, which names the
flow identifier. -/
theorem Retour_times_out (ctx : Ctx) (env : Env) (d : Dpae) (log : Log) (N : Nat)
    (hN : ctx.RetryNb = (N : Int)) (hflux : d.IdFlux ≠ [])
    (hservice : ∀ i, i < N + 1 → NoResult ctx (env (log.length + i))) :
    d.Retour ctx env log =
      some ⟨d,
        some (.urssaf ⟨utf8 "URSSAF: " ++ (utf8 "No answer with idflux " ++ d.IdFlux ++
          utf8 " after " ++ fmtInt (N : Int) ++ utf8 " tries"), none⟩),
        log ++ List.replicate (N + 1) (getReq (ctx.UrlConsultation ++ d.IdFlux))⟩ := by
  unfold Dpae.Retour retourDepth
  rw [retour_noResult ctx env d hflux (N + 1) _ 0 log (by omega) (by rw [hN]; push_cast; omega)
    hservice]
  simp [timeoutErr, UErr, hN, listReq]

/-- C5 at `RetryNb = 2`: a network failure, an empty list, a read failure. -/
theorem Retour_times_out_witness :
    exSession.Retour exCtx
        (envOf [.doErr (utf8 "timeout"), okBody jsonNone, .readErr (utf8 "EOF")]) [] =
      some ⟨exSession,
        some (.urssaf ⟨utf8 "URSSAF: " ++ (utf8 "No answer with idflux " ++ exSession.IdFlux ++
          utf8 " after " ++ fmtInt ((2 : Nat) : Int) ++ utf8 " tries"), none⟩),
        [] ++ List.replicate (2 + 1) (getReq (exCtx.UrlConsultation ++ exSession.IdFlux))⟩ :=
  Retour_times_out exCtx
    (envOf [.doErr (utf8 "timeout"), okBody jsonNone, .readErr (utf8 "EOF")])
    exSession [] 2 (by decide) (by decide)
    (fun i hi => by
      have h3 : i = 0 ∨ i = 1 ∨ i = 2 := by omega
      rcases h3 with rfl | rfl | rfl
      · exact Or.inl ⟨utf8 "timeout", rfl⟩
      · exact Or.inr (Or.inr ⟨⟨utf8 "200 OK", 200, jsonNone⟩, ⟨⟨[]⟩⟩, rfl, by decide,
          by decide⟩)
      · exact Or.inr (Or.inl ⟨utf8 "EOF", rfl⟩))

/-- C7 as stated fails: with attempts left (`RetryNb = 2`), a list answer that does not
parse makes Retour return the plain unmarshal error after one request, whereas a
network failure at the same place is retried and the poll goes on to the certificate. -/
theorem Retour_unparsable_list_not_retried :
    exSession.Retour exCtx
        (envOf [okBody (utf8 "<html>"), okBody jsonOne, okBody docOK]) [] =
      some ⟨exSession, some (.errorf .unmarshalRetours),
        [getReq (exCtx.UrlConsultation ++ exSession.IdFlux)]⟩ ∧
    exSession.Retour exCtx
        (envOf [.doErr (utf8 "timeout"), okBody jsonOne, okBody docOK]) [] =
      some ⟨{ exSession with Certificat := utf8 "CERTIF-0123456789" }, none,
        [getReq (exCtx.UrlConsultation ++ exSession.IdFlux),
         getReq (exCtx.UrlConsultation ++ exSession.IdFlux), getReq (utf8 "https://r/1")]⟩ := by
  decide

/-- C7 amended: in any poll attempt within the budget, a list answer that does not
parse as the expected JSON makes `retour` return at once the plain unmarshal error,
the session unchanged and no further request sent; a network failure of the list
request (in `client.Do` or in reading the body) is retried by the recursive call. -/
theorem retour_unparsable_list_aborts (ctx : Ctx) (env : Env) (fuel : Nat) (retry : Int)
    (d : Dpae) (log : Log) (hretry : retry ≤ ctx.RetryNb) (hflux : d.IdFlux ≠ []) :
    (∀ resp, env log.length = .ok resp → ctx.jsonUnmarshal resp.Body = .error →
      Dpae.retour ctx env (fuel + 1) retry d log =
        some ⟨d, some (.errorf .unmarshalRetours),
          log ++ [getReq (ctx.UrlConsultation ++ d.IdFlux)]⟩) ∧
    (∀ msg, env log.length = .doErr msg ∨ env log.length = .readErr msg →
      Dpae.retour ctx env (fuel + 1) retry d log =
        Dpae.retour ctx env fuel (retry + 1) d
          (log ++ [getReq (ctx.UrlConsultation ++ d.IdFlux)])) := by
  refine ⟨fun resp hE hJ => ?_, fun msg hE => ?_⟩
  · rw [retour_succ]
    unfold attempt
    rw [if_neg (by omega), if_neg hflux, hE]
    simp only [hJ, listReq]
  · rw [retour_succ]
    unfold attempt
    rw [if_neg (by omega), if_neg hflux]
    rcases hE with hE | hE <;> rw [hE] <;> rfl

/-- C7 amended, at the first attempt of a concrete poll. -/
theorem retour_unparsable_list_aborts_witness :
    Dpae.retour exCtx (envOf [okBody (utf8 "<html>")]) (0 + 1) 0 exSession [] =
      some ⟨exSession, some (.errorf .unmarshalRetours),
        [] ++ [getReq (exCtx.UrlConsultation ++ exSession.IdFlux)]⟩ :=
  (retour_unparsable_list_aborts exCtx (envOf [okBody (utf8 "<html>")]) 0 0 exSession []
    (by decide) (by decide)).1 ⟨utf8 "200 OK", 200, utf8 "<html>"⟩ (by decide) (by decide)

/-- C8 as stated fails: a session that already holds a certificate polls a list whose
only document is of another profile; no document yields a certificate, yet Retour
returns success on that attempt, after two requests, with the certificate it held. -/
theorem Retour_success_with_held_certificate :
    containsStr docOther (utf8 "profil=\"DPAE\"") = false ∧
    exCertified.Retour exCtx (envOf [okBody jsonOne, okBody docOther]) [] =
      some ⟨exCertified, none,
        [getReq (exCtx.UrlConsultation ++ exCertified.IdFlux), getReq (utf8 "https://r/1")]⟩ := by
  decide

/-- C8 amended: for every session state at the start of Retour.  (a) Each activation of
`retour` either makes the recursive call with the session unchanged, or ends; it ends
with success only if the session already held a certificate, the list was not empty and
every document lacked the DPAE marker (`HeldIn`, the session unchanged), or if a positive
DPAE document of that attempt's list gave the certificate, as the last request sent
(`CertifiedIn`).  (b) Within the budget and with a flow identifier, the attempt is
retried when the list request fails on the network or brings no URL, when a document
fetch fails on the network after documents without the DPAE marker, and, on a list
whose documents all lack the DPAE marker, when the session holds no certificate; on such
a list a session holding a certificate of at least 10 bytes gets success, unchanged.
(c) Retour ends, and when it returns success the certificate (at least 10 bytes, Go
`len`) was taken from a positive DPAE document fetched during the final attempt, or is
the certificate the session already held, the session unchanged. -/
theorem Retour_success_certificate_origin (ctx : Ctx) (env : Env) (d : Dpae) (log : Log) :
    (∀ (retry : Int) (log1 : Log),
      (∃ log', ∀ fuel, Dpae.retour ctx env (fuel + 1) retry d log1 =
        Dpae.retour ctx env fuel (retry + 1) d log') ∨
      (∃ r, (∀ fuel, Dpae.retour ctx env (fuel + 1) retry d log1 = some r) ∧
        (r.err = none → 10 ≤ r.d.Certificat.length ∧
          (HeldIn ctx env d log1 r ∨ CertifiedIn ctx env d log1 r)))) ∧
    (∀ (fuel : Nat) (retry : Int) (log1 : Log), retry ≤ ctx.RetryNb → d.IdFlux ≠ [] →
      (NoResult ctx (env log1.length) →
        Dpae.retour ctx env (fuel + 1) retry d log1 =
          Dpae.retour ctx env fuel (retry + 1) d
            (log1 ++ [getReq (ctx.UrlConsultation ++ d.IdFlux)])) ∧
      (∀ (resp : Response) (c : Consultation) (skipped : List GoString) (url : GoString)
        (rest : List GoString) (msg : GoString),
        env log1.length = .ok resp → ctx.jsonUnmarshal resp.Body = .value c →
        collectURLs c = skipped ++ url :: rest →
        AllSkipped env skipped.length (log1.length + 1) →
        (env (log1.length + 1 + skipped.length) = .doErr msg ∨
          env (log1.length + 1 + skipped.length) = .readErr msg) →
        Dpae.retour ctx env (fuel + 1) retry d log1 =
          Dpae.retour ctx env fuel (retry + 1) d
            (log1 ++ getReq (ctx.UrlConsultation ++ d.IdFlux) ::
              (skipped ++ [url]).map getReq)) ∧
      (∀ (resp : Response) (c : Consultation),
        env log1.length = .ok resp → ctx.jsonUnmarshal resp.Body = .value c →
        collectURLs c ≠ [] →
        AllSkipped env (collectURLs c).length (log1.length + 1) →
        (d.Certificat = [] →
          Dpae.retour ctx env (fuel + 1) retry d log1 =
            Dpae.retour ctx env fuel (retry + 1) d
              (log1 ++ getReq (ctx.UrlConsultation ++ d.IdFlux) ::
                (collectURLs c).map getReq)) ∧
        (10 ≤ d.Certificat.length →
          Dpae.retour ctx env (fuel + 1) retry d log1 =
            some ⟨d, none, log1 ++ getReq (ctx.UrlConsultation ++ d.IdFlux) ::
              (collectURLs c).map getReq⟩))) ∧
    (∃ r, d.Retour ctx env log = some r ∧
      (r.err = none → 10 ≤ r.d.Certificat.length ∧
        ∃ log0, HeldIn ctx env d log0 r ∨ CertifiedIn ctx env d log0 r)) := by
  refine ⟨?_, ?_, ?_⟩
  · intro retry log1
    have hs := attempt_spec ctx env retry d log1
    cases hA : attempt ctx env retry d log1 with
    | again d' log' =>
      rw [hA] at hs
      left
      refine ⟨log', fun fuel => ?_⟩
      rw [retour_succ, hA, hs.1]
    | stop r =>
      rw [hA] at hs
      right
      refine ⟨r, fun fuel => ?_, hs.2.2⟩
      rw [retour_succ, hA]
  · intro fuel retry log1 hretry hflux
    have hlen : (log1 ++ [listReq ctx d]).length = log1.length + 1 := by simp
    refine ⟨?_, ?_, ?_⟩
    · intro h0
      rw [retour_succ]
      unfold attempt
      rw [if_neg (by omega), if_neg hflux]
      rcases h0 with ⟨msg, h0⟩ | ⟨msg, h0⟩ | ⟨resp, c, h0, hj, hc⟩
      · rw [h0]; rfl
      · rw [h0]; rfl
      · rw [h0]; simp only [hj, hc, List.length_nil, if_true]; rfl
    · intro resp c skipped url rest msg hE hJ hurls hskip hfail
      have hscan : scanURLs env (collectURLs c) d (log1 ++ [listReq ctx d]) =
          scanURLs env (url :: rest) d (log1 ++ [listReq ctx d] ++ skipped.map getReq) := by
        rw [hurls]
        apply scanURLs_skip
        rw [hlen]
        exact hskip
      have hlen2 : (log1 ++ [listReq ctx d] ++ skipped.map getReq).length =
          log1.length + 1 + skipped.length := by simp; omega
      have hne : ¬ (collectURLs c).length = 0 := by rw [hurls]; simp
      have hlog : log1 ++ [listReq ctx d] ++ skipped.map getReq ++ [getReq url] =
          log1 ++ getReq (ctx.UrlConsultation ++ d.IdFlux) :: (skipped ++ [url]).map getReq := by
        simp [listReq]
      rw [retour_succ]
      unfold attempt
      rw [if_neg (by omega), if_neg hflux, hE]
      simp only [hJ, if_neg hne, hscan]
      rw [scanURLs, hlen2]
      rcases hfail with hf | hf <;> rw [hf] <;> simp only [hlog]
    · intro resp c hE hJ hne hskip
      have hscan := scanURLs_skip env d (collectURLs c) [] (log1 ++ [listReq ctx d])
        (by rw [hlen]; exact hskip)
      rw [List.append_nil, scanURLs] at hscan
      have hne' : ¬ (collectURLs c).length = 0 := by
        intro h; exact hne (List.length_eq_zero.mp h)
      have hlog : log1 ++ [listReq ctx d] ++ (collectURLs c).map getReq =
          log1 ++ getReq (ctx.UrlConsultation ++ d.IdFlux) :: (collectURLs c).map getReq := by
        simp [listReq]
      constructor
      · intro hempty
        rw [retour_succ]
        unfold attempt
        rw [if_neg (by omega), if_neg hflux, hE]
        simp only [hJ, if_neg hne', hscan, hempty, List.length_nil, if_true, hlog]
      · intro hheld
        rw [retour_succ]
        unfold attempt
        rw [if_neg (by omega), if_neg hflux, hE]
        simp only [hJ, if_neg hne', hscan]
        rw [if_neg (by omega), if_neg (by omega), hlog]
  · obtain ⟨r, hr⟩ := Retour_ends ctx env d log
    exact ⟨r, hr, (retour_spec ctx env _ _ _ _ _ hr).2.2⟩

/-- C8 amended, on a concrete poll of a session without certificate: a document of
another profile, then the positive DPAE document. -/
theorem Retour_success_certificate_origin_witness :
    exSession.Retour exCtx (envOf [okBody jsonTwo, okBody docOther, okBody docOK]) [] =
      some ⟨{ exSession with Certificat := utf8 "CERTIF-0123456789" }, none,
        [getReq (exCtx.UrlConsultation ++ exSession.IdFlux), getReq (utf8 "https://r/1"),
         getReq (utf8 "https://r/2")]⟩ ∧
    ∃ r, exSession.Retour exCtx
        (envOf [okBody jsonTwo, okBody docOther, okBody docOK]) [] = some r ∧
      (r.err = none → 10 ≤ r.d.Certificat.length ∧
        ∃ log0, HeldIn exCtx (envOf [okBody jsonTwo, okBody docOther, okBody docOK])
            exSession log0 r ∨
          CertifiedIn exCtx (envOf [okBody jsonTwo, okBody docOther, okBody docOK])
            exSession log0 r) :=
  ⟨by decide, (Retour_success_certificate_origin exCtx
    (envOf [okBody jsonTwo, okBody docOther, okBody docOK]) exSession []).2.2⟩

/-! ## The session: claims C6, C9, C10 -/

/-- Auth changes neither the flow identifier nor the certificate. -/
theorem Auth_frame (ctx : Ctx) (env : Env) (d : Dpae) (pw : GoString) (log : Log) :
    (d.Auth ctx env pw log).d.IdFlux = d.IdFlux ∧
    (d.Auth ctx env pw log).d.Certificat = d.Certificat := by
  unfold Dpae.Auth
  split_ifs with h1
  · exact ⟨rfl, rfl⟩
  · simp only
    cases ctx.tAuth { d.Identifiants with MotDePasse := pw } with
    | none => exact ⟨rfl, rfl⟩
    | some ba =>
      simp only
      cases env log.length with
      | buildErr => exact ⟨rfl, rfl⟩
      | doErr _ => exact ⟨rfl, rfl⟩
      | readErr _ => exact ⟨rfl, rfl⟩
      | ok resp =>
        simp only
        split_ifs <;> exact ⟨rfl, rfl⟩

/-- Send never changes the certificate; unless it returns the length error, the flow
identifier is unchanged or has 23 bytes. -/
theorem Send_frame (ctx : Ctx) (env : Env) (d : Dpae) (log : Log) :
    (d.Send ctx env log).d.Certificat = d.Certificat ∧
    ((d.Send ctx env log).err ≠ some (.errorf .idfluxLength) →
      (d.Send ctx env log).d.IdFlux = d.IdFlux ∨ (d.Send ctx env log).d.IdFlux.length = 23) := by
  unfold Dpae.Send
  split_ifs with h1
  · simp
  · simp only
    split_ifs with h2 h3 h3
    all_goals
      simp only []
      split
      · simp
      · split
        · simp
        · simp
        · simp
        · split
          · simp
          · split_ifs with h4
            · simp
            · simp only [ne_eq, Decidable.not_not] at h4
              simp [h4]

theorem toRunes_length_ascii {s : GoString} (h : isASCII s) : (toRunes s).length = s.length := by
  rw [toRunes_ascii s h]

theorem ofRunes_ascii : ∀ (s : GoString), isASCII s → ofRunes s = s := by
  intro s
  induction s with
  | nil => intro _; rfl
  | cons b rest ih =>
    intro h
    have hb : b < 0x80 := h b (List.mem_cons_self _ _)
    have hr : ofRunes rest = rest := ih (fun x hx => h x (List.mem_cons_of_mem _ hx))
    have : ofRunes (b :: rest) = encodeRune b ++ ofRunes rest := by simp [ofRunes]
    rw [this, hr]
    simp [encodeRune, hb]

/-- C6 as stated fails, from a session that satisfies the invariant.  Send returns the
length error on a flow identifier of 3 characters and leaves it on the session; Retour
returns the error `certificat incorrect` on a certificate of 5 characters and leaves it
on the session; Send returns success on a flow identifier of 23 bytes that has 22
characters; Retour returns success on a certificate of 10 bytes that has 5 characters. -/
theorem session_invariant_broken :
    SessionInv exSession ∧
    (exSession.Send exCtx (envOf [okBody depotShort]) []).err =
      some (.errorf .idfluxLength) ∧
    (exSession.Send exCtx (envOf [okBody depotShort]) []).d.IdFlux = utf8 "abc" ∧
    ¬ SessionInv (exSession.Send exCtx (envOf [okBody depotShort]) []).d ∧
    exSession.Retour exCtx (envOf [okBody jsonOne, okBody docShort]) [] =
      some ⟨{ exSession with Certificat := utf8 "short" }, some (.errorf .certificatIncorrect),
        [getReq (exCtx.UrlConsultation ++ exSession.IdFlux), getReq (utf8 "https://r/1")]⟩ ∧
    ¬ SessionInv { exSession with Certificat := utf8 "short" } ∧
    (exSession.Send exCtx (envOf [okBody depotAccent]) []).err = none ∧
    (exSession.Send exCtx (envOf [okBody depotAccent]) []).d.IdFlux =
      utf8 "N23456789012345678901é" ∧
    (toRunes (utf8 "N23456789012345678901é")).length = 22 ∧
    ¬ SessionInv (exSession.Send exCtx (envOf [okBody depotAccent]) []).d ∧
    exSession.Retour exCtx (envOf [okBody jsonOne, okBody docAccent]) [] =
      some ⟨{ exSession with Certificat := utf8 "ééééé" }, none,
        [getReq (exCtx.UrlConsultation ++ exSession.IdFlux), getReq (utf8 "https://r/1")]⟩ ∧
    (toRunes (utf8 "ééééé")).length = 5 ∧
    ¬ SessionInv { exSession with Certificat := utf8 "ééééé" } := by
  decide

/-- C6 amended: for every service and every session.  With the lengths of Go `len`, in
bytes (`SessionInvLen`): from a session whose flow identifier is empty or of 23 bytes
and whose certificate is empty or of at least 10 bytes, the same holds after Auth
whatever it returns, after Send whatever it returns except the flow-identifier length
error, and when Retour ends, whatever its outcome except the error `certificat
incorrect`.  With the lengths in characters (`SessionInv`), the invariant is kept in
the same cases provided the flow identifier left by Send, respectively the certificate
left by Retour, is made of ASCII characters. -/
theorem session_invariant_kept_except_length_errors (ctx : Ctx) (env : Env) (d : Dpae)
    (pw : GoString) (log : Log) :
    (SessionInvLen d →
      SessionInvLen (d.Auth ctx env pw log).d ∧
      ((d.Send ctx env log).err ≠ some (.errorf .idfluxLength) →
        SessionInvLen (d.Send ctx env log).d) ∧
      (∃ r, d.Retour ctx env log = some r ∧
        (r.err ≠ some (.errorf .certificatIncorrect) → SessionInvLen r.d))) ∧
    (SessionInv d →
      SessionInv (d.Auth ctx env pw log).d ∧
      ((d.Send ctx env log).err ≠ some (.errorf .idfluxLength) →
        isASCII (d.Send ctx env log).d.IdFlux → SessionInv (d.Send ctx env log).d) ∧
      (∃ r, d.Retour ctx env log = some r ∧
        (r.err ≠ some (.errorf .certificatIncorrect) →
          isASCII r.d.Certificat → SessionInv r.d))) := by
  obtain ⟨a1, a2⟩ := Auth_frame ctx env d pw log
  obtain ⟨s1, s2⟩ := Send_frame ctx env d log
  obtain ⟨r, hr⟩ := Retour_ends ctx env d log
  obtain ⟨r1, r2, _⟩ := retour_spec ctx env _ _ _ _ _ hr
  constructor
  · rintro ⟨hf, hc⟩
    refine ⟨?_, ?_, r, hr, ?_⟩
    · unfold SessionInvLen
      rw [a1, a2]
      exact ⟨hf, hc⟩
    · intro hn
      unfold SessionInvLen
      rw [s1]
      refine ⟨?_, hc⟩
      rcases s2 hn with h | h
      · rw [h]; exact hf
      · exact Or.inr h
    · intro hn
      unfold SessionInvLen
      rw [r1]
      refine ⟨hf, ?_⟩
      rcases r2 hn with h | h
      · rw [h]; exact hc
      · exact Or.inr h
  · rintro ⟨hf, hc⟩
    refine ⟨?_, ?_, r, hr, ?_⟩
    · unfold SessionInv
      rw [a1, a2]
      exact ⟨hf, hc⟩
    · intro hn hascii
      unfold SessionInv
      rw [s1]
      refine ⟨?_, hc⟩
      rcases s2 hn with h | h
      · rw [h]; exact hf
      · right; rw [toRunes_length_ascii hascii]; exact h
    · intro hn hascii
      unfold SessionInv
      rw [r1]
      refine ⟨hf, ?_⟩
      rcases r2 hn with h | h
      · rw [h]; exact hc
      · right; rw [toRunes_length_ascii hascii]; exact h

/-- C6 amended, on a concrete session: a submission that is accepted, and a submission
refused for a reason other than the length of the flow identifier. -/
theorem session_invariant_kept_except_length_errors_witness :
    SessionInvLen exSession ∧ SessionInv exSession ∧
    (exSession.Send exCtx (envOf [okBody depotOK]) []).err = none ∧
    SessionInvLen (exSession.Send exCtx (envOf [okBody depotOK]) []).d ∧
    SessionInv (exSession.Send exCtx (envOf [okBody depotOK]) []).d ∧
    (exSession.Send exCtx (envOf [okBody (utf8 "<html>")]) []).err =
      some (.errorf .idfluxNotFound) ∧
    SessionInvLen (exSession.Send exCtx (envOf [okBody (utf8 "<html>")]) []).d :=
  ⟨by decide, by decide, by decide,
    ((session_invariant_kept_except_length_errors exCtx (envOf [okBody depotOK]) exSession
      (utf8 "secret") []).1 (by decide)).2.1 (by decide),
    ((session_invariant_kept_except_length_errors exCtx (envOf [okBody depotOK]) exSession
      (utf8 "secret") []).2 (by decide)).2.1 (by decide) (by decide),
    by decide,
    ((session_invariant_kept_except_length_errors exCtx (envOf [okBody (utf8 "<html>")])
      exSession (utf8 "secret") []).1 (by decide)).2.1 (by decide)⟩

/-- The birth department after the normalization of Send. -/
theorem Send_fields (ctx : Ctx) (env : Env) (d : Dpae) (log : Log) (hjeton : d.Jeton ≠ []) :
    ∃ dept : GoString,
      dept = (if d.Employee.BirthDepartment = utf8 "00" then utf8 "99"
        else if 2 < d.Employee.BirthDepartment.length then d.Employee.BirthDepartment.take 2
        else d.Employee.BirthDepartment) ∧
      (d.Send ctx env log).d.Employer = { d.Employer with HealthService := utf8 "01" } ∧
      (d.Send ctx env log).d.Employee = { d.Employee with BirthDepartment := dept } ∧
      (ctx.tDpae { d with
          Employer := { d.Employer with HealthService := utf8 "01" }
          Employee := { d.Employee with BirthDepartment := dept } } = none →
        (d.Send ctx env log).err = some (.errorf .templateDpae)) ∧
      (∀ txt, ctx.tDpae { d with
          Employer := { d.Employer with HealthService := utf8 "01" }
          Employee := { d.Employee with BirthDepartment := dept } } = some txt →
        (d.Send ctx env log).d.Sended = txt) := by
  have h99 : ¬ (utf8 "99").length > 2 := by decide
  refine ⟨_, rfl, ?_⟩
  unfold Dpae.Send
  rw [if_neg hjeton]
  by_cases h0 : d.Employee.BirthDepartment = utf8 "00"
  · simp only [h0, if_true, h99, if_false]
    cases hT : ctx.tDpae _ with
    | none => simp [hT]
    | some bUTF =>
      simp only [hT]
      cases env log.length with
      | buildErr => simp
      | doErr _ => simp
      | readErr _ => simp
      | ok resp =>
        simp only
        cases reIdFlux resp.Body with
        | none => simp
        | some fd1 => simp only []; split_ifs <;> simp
  · simp only [h0, if_false]
    by_cases h2 : 2 < d.Employee.BirthDepartment.length
    · have h2' : d.Employee.BirthDepartment.length > 2 := h2
      simp only [h2, h2', if_true]
      cases hT : ctx.tDpae _ with
      | none => simp [hT]
      | some bUTF =>
        simp only [hT]
        cases env log.length with
        | buildErr => simp
        | doErr _ => simp
        | readErr _ => simp
        | ok resp =>
          simp only
          cases reIdFlux resp.Body with
          | none => simp
          | some fd1 => simp only []; split_ifs <;> simp
    · have h2' : ¬ d.Employee.BirthDepartment.length > 2 := h2
      simp only [h2, h2', if_false]
      cases hT : ctx.tDpae _ with
      | none => simp [hT]
      | some bUTF =>
        simp only [hT]
        cases env log.length with
        | buildErr => simp
        | doErr _ => simp
        | readErr _ => simp
        | ok resp =>
          simp only
          cases reIdFlux resp.Body with
          | none => simp
          | some fd1 => simp only []; split_ifs <;> simp

/-- Send and the birth department, in bytes: for every session with a non-empty token
and every service, whatever Send returns, the session then has the health-service code
`01` and a birth department that is `99` if it was `00`, its first two bytes if it had
more than two bytes, and unchanged otherwise; the declaration is rendered from the
session so normalized. -/
theorem Send_normalizes (ctx : Ctx) (env : Env) (d : Dpae) (log : Log)
    (hjeton : d.Jeton ≠ []) :
    (d.Send ctx env log).d.Employer.HealthService = utf8 "01" ∧
    (d.Employee.BirthDepartment = utf8 "00" →
      (d.Send ctx env log).d.Employee.BirthDepartment = utf8 "99") ∧
    (2 < d.Employee.BirthDepartment.length →
      (d.Send ctx env log).d.Employee.BirthDepartment = d.Employee.BirthDepartment.take 2) ∧
    (d.Employee.BirthDepartment.length ≤ 2 → d.Employee.BirthDepartment ≠ utf8 "00" →
      (d.Send ctx env log).d.Employee.BirthDepartment = d.Employee.BirthDepartment) ∧
    (ctx.tDpae { d with
        Employer := { d.Employer with HealthService := utf8 "01" }
        Employee := { d.Employee with
          BirthDepartment := (d.Send ctx env log).d.Employee.BirthDepartment } } = none →
      (d.Send ctx env log).err = some (.errorf .templateDpae)) ∧
    (∀ txt, ctx.tDpae { d with
        Employer := { d.Employer with HealthService := utf8 "01" }
        Employee := { d.Employee with
          BirthDepartment := (d.Send ctx env log).d.Employee.BirthDepartment } } = some txt →
      (d.Send ctx env log).d.Sended = txt) := by
  obtain ⟨dept, hdept, h1, h2, h3, h4⟩ := Send_fields ctx env d log hjeton
  have hd : (d.Send ctx env log).d.Employee.BirthDepartment = dept := by rw [h2]
  rw [hd]
  refine ⟨by rw [h1], ?_, ?_, ?_, h3, h4⟩
  · intro h; rw [hdept, if_pos h]
  · intro h
    have hne : d.Employee.BirthDepartment ≠ utf8 "00" := by
      intro he; rw [he] at h; exact absurd h (by decide)
    rw [hdept, if_neg hne, if_pos h]
  · intro h hne
    rw [hdept, if_neg hne, if_neg (by omega)]

/-- On a department code made of ASCII characters, Send normalizes as the specification
says, in characters. -/
theorem Send_normalizes_ascii (ctx : Ctx) (env : Env) (d : Dpae) (log : Log)
    (hjeton : d.Jeton ≠ []) (hascii : isASCII d.Employee.BirthDepartment) :
    (d.Send ctx env log).d.Employee.BirthDepartment =
      ofRunes (normalizeDeptSpec (toRunes d.Employee.BirthDepartment)) := by
  obtain ⟨_, h0, h2, h1, _, _⟩ := Send_normalizes ctx env d log hjeton
  have h00 : utf8 "00" = [0x30, 0x30] := by decide
  have h99 : ofRunes [0x39, 0x39] = utf8 "99" := by decide
  rw [toRunes_ascii _ hascii]
  unfold normalizeDeptSpec
  by_cases c0 : d.Employee.BirthDepartment = [0x30, 0x30]
  · rw [if_pos c0, h99]
    exact h0 (by rw [c0, h00])
  · rw [if_neg c0]
    by_cases c2 : 2 < d.Employee.BirthDepartment.length
    · rw [if_pos c2, h2 c2]
      exact (ofRunes_ascii _ (fun b hb => hascii b (List.mem_of_mem_take hb))).symm
    · rw [if_neg c2, h1 (by omega) (by rw [h00]; exact c0)]
      exact (ofRunes_ascii _ hascii).symm

/-- C9 (defect of the code): Send tests and cuts the birth department in bytes, not in
characters.  The department `aé` has two characters and the specification leaves it
unchanged; it has three bytes and the code keeps the first two, `a` and the first byte
of `é`.  The department `éée` has three characters and the specification keeps `éé`;
the code keeps two bytes, `é`.  The examples of the claim hold: `974` becomes `97`,
`00` becomes `99`, `2A` is unchanged, and the health-service code becomes `01`. -/
theorem Send_cuts_department_bytes :
    (exBornIn (utf8 "aé")).Jeton ≠ [] ∧
    toRunes (utf8 "aé") = [0x61, 0xE9] ∧
    normalizeDeptSpec [0x61, 0xE9] = [0x61, 0xE9] ∧
    ((exBornIn (utf8 "aé")).Send exCtx (envOf []) []).d.Employee.BirthDepartment =
      [0x61, 0xC3] ∧
    ((exBornIn (utf8 "aé")).Send exCtx (envOf []) []).d.Employee.BirthDepartment ≠
      ofRunes (normalizeDeptSpec (toRunes (utf8 "aé"))) ∧
    toRunes (utf8 "éée") = [0xE9, 0xE9, 0x65] ∧
    ofRunes (normalizeDeptSpec (toRunes (utf8 "éée"))) = utf8 "éé" ∧
    ((exBornIn (utf8 "éée")).Send exCtx (envOf []) []).d.Employee.BirthDepartment =
      utf8 "é" ∧
    ((exBornIn (utf8 "974")).Send exCtx (envOf []) []).d.Employee.BirthDepartment =
      utf8 "97" ∧
    ((exBornIn (utf8 "00")).Send exCtx (envOf []) []).d.Employee.BirthDepartment =
      utf8 "99" ∧
    ((exBornIn (utf8 "2A")).Send exCtx (envOf []) []).d.Employee.BirthDepartment =
      utf8 "2A" ∧
    ((exBornIn (utf8 "aé")).Send exCtx (envOf []) []).d.Employer.HealthService =
      utf8 "01" := by
  decide

/-- Auth and the password: when the authentication template renders, the password
field is empty when Auth returns, whatever the exchange gives; when the execution of
the template fails, the password given to Auth stays on the session. -/
theorem Auth_password (ctx : Ctx) (env : Env) (d : Dpae) (pw : GoString) (log : Log)
    (hpw : pw ≠ []) (hsiret : d.Identifiants.SIRET ≠ []) :
    (ctx.tAuth { d.Identifiants with MotDePasse := pw } ≠ none →
      (d.Auth ctx env pw log).d.Identifiants.MotDePasse = []) ∧
    (ctx.tAuth { d.Identifiants with MotDePasse := pw } = none →
      (d.Auth ctx env pw log).err = some (.errorf .templateAuth) ∧
      (d.Auth ctx env pw log).d.Identifiants.MotDePasse = pw) := by
  unfold Dpae.Auth
  rw [if_neg (by simp [hpw, hsiret])]
  simp only
  cases hT : ctx.tAuth { d.Identifiants with MotDePasse := pw } with
  | none => simp
  | some ba =>
    simp only [ne_eq, reduceCtorEq, not_false_eq_true, forall_true_left, false_implies,
      and_true]
    cases env log.length with
    | buildErr => rfl
    | doErr _ => rfl
    | readErr _ => rfl
    | ok resp =>
      simp only
      split_ifs <;> rfl

/-- C10 (defect of the code): Auth is called with the password `secret` on a session
with an organization identifier; the execution of the authentication template fails;
Auth returns the template error before the statement that erases the password, which
is still on the session. -/
theorem Auth_keeps_password_on_template_error :
    utf8 "secret" ≠ [] ∧ exSession.Identifiants.SIRET ≠ [] ∧
    (exSession.Auth exCtxBadTemplate (envOf []) (utf8 "secret") []).err =
      some (.errorf .templateAuth) ∧
    (exSession.Auth exCtxBadTemplate (envOf []) (utf8 "secret") []).d.Identifiants.MotDePasse =
      utf8 "secret" ∧
    (exSession.Auth exCtx (envOf []) (utf8 "secret") []).d.Identifiants.MotDePasse = [] := by
  decide

end dpae
